import Mathlib

/-!
# Inline-Engine: GUI event dispatch, node editor panel and BitConverter

A shallow embedding of

* `Executables/NodeEditor_v2/NodePanel.cpp` (namespace `inl.tool`),
* `Engine/NetworkEngine_HL/BitConverter.hpp` (namespace `inl.BitConverter`),
* `Engine/GuiEngine/GuiEngine.cpp` (namespace `inl.gui`),

followed by the theorems about them. Pointers are addresses (natural numbers),
a null pointer is `none`, floating point coordinates are exact rationals, and a
handler call is an entry of an output list.
-/

namespace inl.tool

/-! ## NodePanel: data model -/

/-- Vec2 of the node editor, with exact coordinates. -/
@[ext]
structure Vec2 where
  x : ℚ
  y : ℚ
deriving DecidableEq

instance : Add Vec2 := ⟨fun a b => ⟨a.x + b.x, a.y + b.y⟩⟩
instance : Sub Vec2 := ⟨fun a b => ⟨a.x - b.x, a.y - b.y⟩⟩

/-- Address of a `NodeControl`. -/
abbrev NodeId := Nat

/-- ArrowKey: the key of `m_arrows`, built in `AddLink` and `RemoveLink` as
`ArrowKey key{ source, sourcePort, target, targetPort }`. -/
structure ArrowKey where
  source : NodeId
  sourcePort : Int
  target : NodeId
  targetPort : Int
deriving DecidableEq

/-- ArrowControl: the object made by `std::make_shared<ArrowControl>()`. The field
`addr` is the address of the allocation, `begin` and `finish` are the end points
written by `SetEndPoints`. -/
structure ArrowControl where
  addr : Nat
  begin : Vec2
  finish : Vec2
deriving DecidableEq

/-- SetEndPoints of an arrow. -/
def ArrowControl.SetEndPoints (a : ArrowControl) (b e : Vec2) : ArrowControl :=
  { a with begin := b, finish := e }

/-- Modelled from the spec: PortControl is not under src. A port belongs to a node,
has a port index and one direction, input or output (spec 4.5: a compatible port
of opposite direction, input vs output). -/
structure PortControl where
  node : NodeId
  portIndex : Int
  isInput : Bool
deriving DecidableEq

def PortControl.IsInput (p : PortControl) : Bool := p.isInput
def PortControl.IsOutput (p : PortControl) : Bool := !p.isInput
def PortControl.GetNode (p : PortControl) : NodeId := p.node
def PortControl.GetPortIndex (p : PortControl) : Int := p.portIndex

/-- Control: what a `Control*` handed to a drag handler can point to. `layout` is
`&m_layout`; the two `dynamic_cast`s of the handlers are `asNode` and `asPort`. -/
inductive Control where
  | node (n : NodeId)
  | port (p : PortControl)
  | arrow (addr : Nat)
  | temporaryArrow
  | layout
  | other (addr : Nat)
deriving DecidableEq

/-- The cast `dynamic_cast<PortControl*>(control)`; a null pointer casts to null. -/
def asPort : Option Control → Option PortControl
  | some (.port p) => some p
  | _ => none

/-- The cast `dynamic_cast<NodeControl*>(control)`; a null pointer casts to null. -/
def asNode : Option Control → Option NodeId
  | some (.node n) => some n
  | _ => none

/-- Modelled from the spec: AbsoluteLayout is not under src. It is the ordered list
of the children of the panel (front first) and the position bound to each child
(`m_layout[child].GetPosition()`). -/
structure AbsoluteLayout where
  children : List Control
  position : Control → Vec2

namespace AbsoluteLayout

/-- AddChild: a child that is not yet in the layout is appended. -/
def AddChild (l : AbsoluteLayout) (c : Control) : AbsoluteLayout :=
  if c ∈ l.children then l else { l with children := l.children ++ [c] }

/-- MoveToFront of the binding of `c`. -/
def MoveToFront (l : AbsoluteLayout) (c : Control) : AbsoluteLayout :=
  if c ∈ l.children then { l with children := c :: l.children.erase c } else l

def RemoveChild (l : AbsoluteLayout) (c : Control) : AbsoluteLayout :=
  { l with children := l.children.erase c }

def GetPosition (l : AbsoluteLayout) (c : Control) : Vec2 := l.position c

def SetPosition (l : AbsoluteLayout) (c : Control) (v : Vec2) : AbsoluteLayout :=
  { l with position := fun d => if d = c then v else l.position d }

end AbsoluteLayout

/-- StdMap: a `std::map`, kept as its entries with pairwise distinct keys. -/
structure StdMap (κ : Type) (ν : Type) where
  entries : List (κ × ν)
  nodup : (entries.map Prod.fst).Nodup

namespace StdMap

variable {κ ν : Type} [DecidableEq κ]

def empty : StdMap κ ν := ⟨[], List.nodup_nil⟩

/-- The lookup `find(key)`: the stored value, `none` for `end()`. -/
def find (m : StdMap κ ν) (k : κ) : Option ν :=
  (m.entries.find? (fun e => e.1 = k)).map Prod.snd

def contains (m : StdMap κ ν) (k : κ) : Bool := (m.find k).isSome

def keys (m : StdMap κ ν) : List κ := m.entries.map Prod.fst

/-- The call `insert` of the pair of `k` and `v`: nothing happens when the key is
present; the result carries the flag `isNew`. -/
def insert (m : StdMap κ ν) (k : κ) (v : ν) : StdMap κ ν × Bool :=
  if h : k ∈ m.keys then (m, false)
  else
    (⟨m.entries ++ [(k, v)], by
      rw [List.map_append, List.nodup_append]
      refine ⟨m.nodup, by simp, ?_⟩
      intro a ha hb
      simp only [List.map_cons, List.map_nil, List.mem_singleton] at hb
      exact h (hb ▸ ha)⟩, true)

/-- The call `erase(it)` for the iterator found for `k`: that one entry goes. -/
def erase (m : StdMap κ ν) (k : κ) : StdMap κ ν :=
  ⟨m.entries.eraseP (fun e => e.1 = k),
    m.nodup.sublist (List.Sublist.map _ (List.eraseP_sublist _))⟩

/-- Apply `f` to every stored value, as a loop over the map that mutates the
mapped objects in place. -/
def mapValues (m : StdMap κ ν) (f : κ → ν → ν) : StdMap κ ν :=
  ⟨m.entries.map (fun e => (e.1, f e.1 e.2)), by
    have : (m.entries.map (fun e => (e.1, f e.1 e.2))).map Prod.fst = m.entries.map Prod.fst := by
      simp [List.map_map, Function.comp_def]
    rw [this]; exact m.nodup⟩

/-- Mutate in place the value stored for `k`. -/
def modify (m : StdMap κ ν) (k : κ) (f : ν → ν) : StdMap κ ν :=
  m.mapValues (fun k' v => if k' = k then f v else v)

end StdMap

/-- StdSet: a `std::set`, kept as its elements, pairwise distinct. -/
structure StdSet (κ : Type) where
  elems : List κ
  nodup : elems.Nodup

namespace StdSet

variable {κ : Type} [DecidableEq κ]

def empty : StdSet κ := ⟨[], List.nodup_nil⟩

def insert (s : StdSet κ) (k : κ) : StdSet κ × Bool :=
  if h : k ∈ s.elems then (s, false)
  else (⟨s.elems ++ [k], by
    rw [List.nodup_append]
    refine ⟨s.nodup, by simp, ?_⟩
    intro a ha hb
    simp only [List.mem_singleton] at hb
    exact h (hb ▸ ha)⟩, true)

def erase (s : StdSet κ) (k : κ) : StdSet κ :=
  ⟨s.elems.erase k, s.nodup.sublist (List.erase_sublist _ _)⟩

end StdSet

/-- Modelled from the spec: NodeControl is not under src. The position and the size
of the output and input ports of a node (`GetOutputPort(i).GetPosition()` and so
on) are read from the layout the node sits in. -/
structure PortGeometry where
  outputPosition : AbsoluteLayout → NodeId → Int → Vec2
  outputSize : AbsoluteLayout → NodeId → Int → Vec2
  inputPosition : AbsoluteLayout → NodeId → Int → Vec2
  inputSize : AbsoluteLayout → NodeId → Int → Vec2

inductive Exception where
  | InvalidArgumentException (message : String)
deriving DecidableEq

/-- One firing of the event `OnAddLink(source, sourcePort, target, targetPort)`. -/
structure LinkRequest where
  source : NodeId
  sourcePort : Int
  target : NodeId
  targetPort : Int
deriving DecidableEq

/-- NodePanel: the members of the class that the member functions below use. -/
structure NodePanel where
  m_layout : AbsoluteLayout
  m_nodes : StdSet NodeId
  m_arrows : StdMap ArrowKey ArrowControl
  m_draggedNode : Option NodeId
  m_draggedPort : Option PortControl
  m_panOrigin : Vec2

namespace NodePanel

/-- The panel after the constructor: nothing shown. -/
def new : NodePanel :=
  { m_layout := ⟨[], fun _ => ⟨0, 0⟩⟩, m_nodes := StdSet.empty, m_arrows := StdMap.empty,
    m_draggedNode := none, m_draggedPort := none, m_panOrigin := ⟨0, 0⟩ }

def AddNode (p : NodePanel) (node : NodeId) : NodePanel :=
  let r := p.m_nodes.insert node
  { p with m_nodes := r.1,
           m_layout := (p.m_layout.AddChild (.node node)).SetPosition (.node node) ⟨0, 0⟩ }

def RemoveNode (p : NodePanel) (node : NodeId) : Except Exception Unit × NodePanel :=
  if node ∈ p.m_nodes.elems then
    (.ok (), { p with m_nodes := p.m_nodes.erase node })
  else
    (.error (.InvalidArgumentException "Node is not shown on this panel."), p)

/-- The end points `UpdateArrowPosition` computes for the arrow of `key`. -/
def arrowEndPoints (g : PortGeometry) (l : AbsoluteLayout) (key : ArrowKey) : Vec2 × Vec2 :=
  let sourcePos := g.outputPosition l key.source key.sourcePort
  let sourceSize := g.outputSize l key.source key.sourcePort
  let targetPos := g.inputPosition l key.target key.targetPort
  let targetSize := g.inputSize l key.target key.targetPort
  (sourcePos + ⟨sourceSize.x / 2, 0⟩, targetPos - ⟨targetSize.x / 2, 0⟩)

def UpdateArrowPosition (g : PortGeometry) (l : AbsoluteLayout) (key : ArrowKey)
    (arrow : ArrowControl) : ArrowControl :=
  arrow.SetEndPoints (arrowEndPoints g l key).1 (arrowEndPoints g l key).2

def UpdateArrowPositions (g : PortGeometry) (p : NodePanel) : NodePanel :=
  { p with m_arrows := p.m_arrows.mapValues (fun key arrow => UpdateArrowPosition g p.m_layout key arrow) }

/-- AddLink. `fresh` is the address of the `ArrowControl` that `std::make_shared`
allocates in this call; it is dropped again when the key is already present. -/
def AddLink (g : PortGeometry) (fresh : Nat) (p : NodePanel)
    (source : NodeId) (sourcePort : Int) (target : NodeId) (targetPort : Int) : NodePanel :=
  let key : ArrowKey := ⟨source, sourcePort, target, targetPort⟩
  let r := p.m_arrows.insert key ⟨fresh, ⟨0, 0⟩, ⟨0, 0⟩⟩
  if r.2 then
    let layout := (p.m_layout.AddChild (.arrow fresh)).MoveToFront (.arrow fresh)
    { p with m_layout := layout,
             m_arrows := r.1.modify key (UpdateArrowPosition g layout key) }
  else
    { p with m_arrows := r.1 }

def RemoveLink (p : NodePanel)
    (source : NodeId) (sourcePort : Int) (target : NodeId) (targetPort : Int) :
    Except Exception Unit × NodePanel :=
  let key : ArrowKey := ⟨source, sourcePort, target, targetPort⟩
  match p.m_arrows.find key with
  | some _ => (.ok (), { p with m_arrows := p.m_arrows.erase key })
  | none => (.error (.InvalidArgumentException "There is no link between specified nodes."), p)

/-- The body of the loop of `OffsetAllNodes` for one node. -/
def offsetNode (offset : Vec2) (q : NodePanel) (node : NodeId) : NodePanel :=
  { q with m_layout :=
      q.m_layout.SetPosition (.node node) (q.m_layout.GetPosition (.node node) + offset) }

def OffsetAllNodes (p : NodePanel) (offset : Vec2) : NodePanel :=
  p.m_nodes.elems.foldl (offsetNode offset) p

/-- OnPortDragEnd, with the firings of `OnAddLink` as second component. -/
def OnPortDragEnd (p : NodePanel) (control : Option Control) (_dragEnd : Vec2)
    (target : Option Control) : NodePanel × List LinkRequest :=
  match asPort control with
  | some port =>
    let layout := p.m_layout.RemoveChild .temporaryArrow
    let fired : List LinkRequest :=
      match asPort target with
      | some targetPort =>
        if xor port.IsInput targetPort.IsInput then
          let swapped := if targetPort.IsOutput then (targetPort, port) else (port, targetPort)
          [⟨swapped.1.GetNode, swapped.1.GetPortIndex, swapped.2.GetNode, swapped.2.GetPortIndex⟩]
        else []
      | none => []
    ({ p with m_layout := layout, m_draggedPort := none }, fired)
  | none => (p, [])

def OnPanViewBegin (p : NodePanel) (control : Option Control) (dragOrigin : Vec2) : NodePanel :=
  if control = some .layout then { p with m_panOrigin := dragOrigin } else p

def OnPanView (g : PortGeometry) (p : NodePanel) (control : Option Control) (dragTarget : Vec2) :
    NodePanel :=
  if control = some .layout then
    let offset := dragTarget - p.m_panOrigin
    UpdateArrowPositions g (OffsetAllNodes { p with m_panOrigin := dragTarget } offset)
  else p

/-- A pan gesture on the control `control`: `OnPanViewBegin` at `origin`, then one
`OnPanView` for each drag target in turn. -/
def panGesture (g : PortGeometry) (p : NodePanel) (control : Option Control) (origin : Vec2)
    (targets : List Vec2) : NodePanel :=
  targets.foldl (fun q t => OnPanView g q control t) (OnPanViewBegin p control origin)

/-- A port geometry for the examples: the ports of a node sit at the position the
layout binds to the node, shifted down by the port index; every port is 4 wide. -/
def demoGeometry : PortGeometry :=
  { outputPosition := fun l n i => l.position (.node n) + ⟨10, i⟩
    outputSize := fun _ _ _ => ⟨4, 4⟩
    inputPosition := fun l n i => l.position (.node n) + ⟨0, i⟩
    inputSize := fun _ _ _ => ⟨4, 4⟩ }

/-- A panel for the examples: nodes 1 and 2, and the link from output 0 of node 1
to input 0 of node 2. -/
def demoPanel : NodePanel :=
  AddLink demoGeometry 100 ((NodePanel.new.AddNode 1).AddNode 2) 1 0 2 0

end NodePanel

end inl.tool

namespace inl.BitConverter

/-! ## BitConverter

A value of a type `T` is taken as its object representation, the `sizeof(T)` bytes
that `memcpy` reads from `&value` and writes to it. A buffer is the list of its
bytes. -/

/-- One `uint8_t`. -/
abbrev Byte := Fin 256

/-- The buffer `new uint8_t[n]()`: `n` bytes, value-initialised to zero. -/
def newZeroed (n : Nat) : List Byte := List.replicate n 0

/-- The call `memcpy(dst, src, n)`: the first `n` bytes of `dst` become those of `src`. -/
def memcpy (dst src : List Byte) (n : Nat) : List Byte := src.take n ++ dst.drop n

/-- ToBytes for a type of size `sizeofT`. -/
def ToBytes (sizeofT : Nat) (value : List Byte) : List Byte :=
  let data := newZeroed sizeofT
  memcpy data value sizeofT

/-- FromBytes for a type of size `sizeofT`. The argument `data` is the buffer passed
in (`none` for a null pointer); it is deleted when not null and the local `data`
is then bound to a new zeroed buffer. The argument `indeterminate` is the content
of the declared, not yet assigned `T value;`. -/
def FromBytes (sizeofT : Nat) (indeterminate : List Byte) (data : Option (List Byte)) : List Byte :=
  let _deleted := data
  let data := newZeroed sizeofT
  let value := indeterminate
  memcpy value data sizeofT

end inl.BitConverter

namespace inl.gui

/-! ## GuiEngine: geometry and the attributes of a control -/

/-- Vector2f, with exact coordinates. -/
@[ext]
structure Vector2f where
  x : ℚ
  y : ℚ
deriving DecidableEq

instance : Add Vector2f := ⟨fun a b => ⟨a.x + b.x, a.y + b.y⟩⟩

/-- RectF: the four numbers given to its constructor, in that order. The source
reads and writes the first as `left` and the third as `top`. -/
structure RectF where
  left : ℚ
  right : ℚ
  top : ℚ
  bottom : ℚ
deriving DecidableEq

/-- Modelled from the spec: the member functions of RectF are not under src.
`Intersect` is `RectF::Intersect` and `IsPointInside` is `RectF::IsPointInside`;
the engine is embedded for any pair of them. -/
structure RectOps where
  Intersect : RectF → RectF → RectF
  IsPointInside : RectF → Vector2f → Bool

def FLT_MAX : ℚ := 340282346638528859811704183484516925440

/-- The rectangle `RectF(-FLT_MAX * 0.5, FLT_MAX, -FLT_MAX * 0.5, FLT_MAX)` that
`Update` writes in two places. -/
def infiniteRect : RectF := ⟨-FLT_MAX * 0.5, FLT_MAX, -FLT_MAX * 0.5, FLT_MAX⟩

/-- Modelled from the spec: Gui is not under src. These are the attributes of a
control that the engine reads and writes: whether it is a layer (`IsLayer`),
hoverable (`IsHoverable`) and clips its children (`IsChildrenClipEnabled`), its
rectangle (`GetRect`, `SetRect`), its padding rectangle (`GetPaddingRect`), its
visible rectangle (written by `SetVisibleRect`) and the address of its context
menu (`GetContextMenu`, `none` for null). -/
structure GuiProps where
  isLayer : Bool
  hoverable : Bool
  childrenClip : Bool
  rect : RectF
  paddingRect : RectF
  visibleRect : RectF
  contextMenu : Option Nat
deriving DecidableEq

namespace GuiProps

def IsLayer (c : GuiProps) : Bool := c.isLayer
def IsHoverable (c : GuiProps) : Bool := c.hoverable
def IsChildrenClipEnabled (c : GuiProps) : Bool := c.childrenClip
def GetPaddingRect (c : GuiProps) : RectF := c.paddingRect
def GetRect (c : GuiProps) : RectF := c.rect
def GetContextMenu (c : GuiProps) : Option Nat := c.contextMenu
def SetVisibleRect (c : GuiProps) (r : RectF) : GuiProps := { c with visibleRect := r }
def SetRect (c : GuiProps) (r : RectF) : GuiProps := { c with rect := r }

/-- Modelled from the spec: `Gui::GetVisiblePaddingRect` is not under src; it is the
padding rectangle clipped by the visible rectangle. -/
def GetVisiblePaddingRect (R : RectOps) (c : GuiProps) : RectF :=
  R.Intersect c.paddingRect c.visibleRect

end GuiProps

/-- An implementation of the rectangle functions for the examples: a rectangle
holds the points with `left ≤ x ≤ right` and `top ≤ y ≤ bottom`. -/
def demoRectOps : RectOps :=
  { Intersect := fun a b =>
      ⟨max a.left b.left, min a.right b.right, max a.top b.top, min a.bottom b.bottom⟩
    IsPointInside := fun r p =>
      decide (r.left ≤ p.x) && decide (p.x ≤ r.right) && decide (r.top ≤ p.y) &&
        decide (p.y ≤ r.bottom) }

/-! ## GuiEngine::Update: the clip pass and the hover search

`Update` walks the controls from the layers down through `GetChildren()`. A parent
owns its children, so for these walks a control is embedded together with the
controls below it. -/

namespace Frame

/-- Gui: a control at address `addr` with its attributes and its children. -/
inductive Gui where
  | mk (addr : Nat) (props : GuiProps) (children : List Gui)

def Gui.addr : Gui → Nat
  | .mk a _ _ => a

def Gui.props : Gui → GuiProps
  | .mk _ p _ => p

def Gui.GetChildren : Gui → List Gui
  | .mk _ _ cs => cs

/-- The members of GuiEngine that `Update` uses. -/
structure GuiEngine where
  layers : List Gui
  postProcessLayer : Gui
  hoveredGui : Option Nat
  bHoverFreezed : Bool

/-- What `Update` asks of the target window. -/
structure Window where
  focused : Bool
  clientCursorPos : Vector2f

def Window.IsFocused (w : Window) : Bool := w.focused
def Window.GetClientCursorPos (w : Window) : Vector2f := w.clientCursorPos

def GuiEngine.GetLayers (e : GuiEngine) : List Gui := e.layers ++ [e.postProcessLayer]

def GuiEngine.IsHoverFreezed (e : GuiEngine) : Bool := e.bHoverFreezed

mutual
/-- The lambda `traverseControls` of the clip pass of `Update`; the result is the
control with the visible rectangles written, in it and below it. -/
def traverseControls (R : RectOps) : Gui → RectF → Gui
  | .mk addr props children, clipRect =>
    let control := props.SetVisibleRect clipRect
    let rect := if control.IsChildrenClipEnabled then control.GetPaddingRect else infiniteRect
    let newClipRect := R.Intersect clipRect rect
    .mk addr control (traverseChildren R children newClipRect)
/-- The loop `for (Gui* child : control->GetChildren())` of the clip pass. -/
def traverseChildren (R : RectOps) : List Gui → RectF → List Gui
  | [], _ => []
  | child :: rest, newClipRect =>
    traverseControls R child newClipRect :: traverseChildren R rest newClipRect
end

/-- The loop `for (GuiLayer* layer : GetLayers())` of `Update`: every layer, the
post process layer included, is walked from the rectangle `infiniteRect`. -/
def clipPass (R : RectOps) (e : GuiEngine) : GuiEngine :=
  { e with layers := e.layers.map (fun layer => traverseControls R layer infiniteRect),
           postProcessLayer := traverseControls R e.postProcessLayer infiniteRect }

mutual
/-- The lambda `traverseControls` of `TraverseGuiControls`: `fn` on the control, then
the children in order. The state `σ` is what `fn` captures by reference. -/
def visitControl {σ : Type} (fn : σ → Gui → σ) : Gui → σ → σ
  | .mk addr props children, s => visitChildren fn children (fn s (.mk addr props children))
def visitChildren {σ : Type} (fn : σ → Gui → σ) : List Gui → σ → σ
  | [], s => s
  | child :: rest, s => visitChildren fn rest (visitControl fn child s)
end

/-- TraverseGuiControls: all layers, then the post process layer. -/
def GuiEngine.TraverseGuiControls {σ : Type} (e : GuiEngine) (fn : σ → Gui → σ) (s : σ) : σ :=
  let allLayers := e.layers ++ [e.postProcessLayer]
  allLayers.foldl (fun s layer => visitControl fn layer s) s

/-- The test of the hover search of `Update`. -/
def isHoverCandidate (R : RectOps) (cursorPos : Vector2f) (control : Gui) : Bool :=
  !control.props.IsLayer && control.props.IsHoverable &&
    R.IsPointInside (control.props.GetVisiblePaddingRect R) cursorPos

/-- The lambda of the hover search; the state is `newHoveredControl`. -/
def hoverSearchFn (R : RectOps) (cursorPos : Vector2f) (newHoveredControl : Option Nat)
    (control : Gui) : Option Nat :=
  if isHoverCandidate R cursorPos control then some control.addr else newHoveredControl

/-- Update, as far as the members above go. The handlers it calls (update, leave,
enter, hovering) are calls out of the engine and leave these members as they are;
they are left out. -/
def GuiEngine.Update (R : RectOps) (e : GuiEngine) (w : Window) : GuiEngine :=
  if !w.IsFocused then e
  else
    let e := clipPass R e
    if !e.IsHoverFreezed then
      let cursorPos := w.GetClientCursorPos + ⟨0.5, 0.5⟩
      let newHoveredControl := e.TraverseGuiControls (hoverSearchFn R cursorPos) none
      { e with hoveredGui := newHoveredControl }
    else e

mutual
/-- Depth-first pre-order of the spec: a control before its children, the children
in list order. -/
def preorder : Gui → List Gui
  | .mk addr props children => .mk addr props children :: preorderList children
def preorderList : List Gui → List Gui
  | [] => []
  | child :: rest => preorder child ++ preorderList rest
end

/-- All controls in the order of the spec: the registered layers in registration
order, then the overlay layer, each in depth-first pre-order. -/
def GuiEngine.allControls (e : GuiEngine) : List Gui :=
  preorderList (e.layers ++ [e.postProcessLayer])

/-- An engine for the examples: one layer at address 1 with padding rectangle
[0, 100] x [0, 100] that clips its children and has the hoverable children 2 and 3,
and the post process layer at address 0. -/
def demoEngine : GuiEngine :=
  { layers := [.mk 1 ⟨true, false, true, ⟨0, 100, 0, 100⟩, ⟨0, 100, 0, 100⟩, ⟨0, 0, 0, 0⟩, none⟩
      [.mk 2 ⟨false, true, false, ⟨0, 50, 0, 50⟩, ⟨0, 50, 0, 50⟩, ⟨0, 0, 0, 0⟩, none⟩ [],
       .mk 3 ⟨false, true, false, ⟨40, 90, 40, 90⟩, ⟨40, 90, 40, 90⟩, ⟨0, 0, 0, 0⟩, none⟩ []]]
    postProcessLayer := .mk 0 ⟨true, false, false, ⟨0, 100, 0, 100⟩, ⟨0, 100, 0, 100⟩, ⟨0, 0, 0, 0⟩, none⟩ []
    hoveredGui := none
    bHoverFreezed := false }

end Frame

/-! ## GuiEngine: the handlers of mouse press, release and move

The handlers walk from the hovered control up through the parent pointers, detach
and attach context menus, and call the handlers of the engine and of the controls.
Here the controls live in a heap, from address to object, and every call of a
handler is appended to `fired`. -/

namespace Input

/-- Modelled from the spec: eMouseBtn is not under src; the handlers only ask
whether the button is `RIGHT`. -/
inductive eMouseBtn where
  | LEFT
  | RIGHT
  | MIDDLE
deriving DecidableEq

/-- WindowEvent: the fields of the event of the window that the handlers read. -/
structure WindowEvent where
  clientMousePos : Vector2f
  mouseBtn : eMouseBtn
  mouseDelta : Vector2f
deriving DecidableEq

/-- CursorEvent: the data handed to the handlers. -/
structure CursorEvent where
  cursorPos : Vector2f
  mouseDelta : Vector2f
deriving DecidableEq

/-- The four families of handlers the three window handlers call. -/
inductive Signal where
  | MousePressed
  | MouseReleased
  | MouseClicked
  | MouseMoved
deriving DecidableEq

/-- One call of a handler: `engine s d` is `onMouseX(eventData)` of the engine,
`perInstance c s d` is `control->onMouseX(eventData)` and `clonable c s a d` is
`control->onMouseXClonable(a, eventData)`, for the control at address `c`. -/
inductive Notification where
  | engine (s : Signal) (eventData : CursorEvent)
  | perInstance (control : Nat) (s : Signal) (eventData : CursorEvent)
  | clonable (control : Nat) (s : Signal) (argument : Nat) (eventData : CursorEvent)
deriving DecidableEq

/-- Gui: a control in the heap, with the address of its parent (`none` for null)
and the addresses of its children. -/
structure Gui where
  props : GuiProps
  parent : Option Nat
  children : List Nat
deriving DecidableEq

/-- The members of GuiEngine that the three handlers use, the heap of controls
`guis`, and the calls made so far. -/
structure GuiEngine where
  guis : Nat → Gui
  layers : List Nat
  postProcessLayer : Nat
  hoveredGui : Option Nat
  activeContextMenu : Option Nat
  mousePosWhenPress : Vector2f
  fired : List Notification

namespace GuiEngine

def fire (e : GuiEngine) (n : Notification) : GuiEngine := { e with fired := e.fired ++ [n] }

/-- Write the object `g` at address `a`. -/
def store (e : GuiEngine) (a : Nat) (g : Gui) : GuiEngine :=
  { e with guis := fun b => if b = a then g else e.guis b }

/-- Modelled from the spec: `Gui::RemoveFromParent` is not under src. The control
leaves the children of its parent and has no parent afterwards; a control without
parent stays as it is. -/
def RemoveFromParent (e : GuiEngine) (control : Nat) : GuiEngine :=
  match (e.guis control).parent with
  | none => e
  | some parent =>
    let e1 := e.store parent { e.guis parent with children := (e.guis parent).children.erase control }
    e1.store control { e1.guis control with parent := none }

/-- Modelled from the spec: `Gui::Add` is not under src. The child leaves its former
parent, is appended to the children of `parent` and gets `parent` as parent (spec
4.3: attaches that menu to the overlay layer). -/
def Add (e : GuiEngine) (parent child : Nat) : GuiEngine :=
  let e1 := e.RemoveFromParent child
  let e2 := e1.store parent { e1.guis parent with children := (e1.guis parent).children ++ [child] }
  e2.store child { e2.guis child with parent := some parent }

def GetRect (e : GuiEngine) (control : Nat) : RectF := (e.guis control).props.GetRect

def SetRect (e : GuiEngine) (control : Nat) (rect : RectF) : GuiEngine :=
  e.store control { e.guis control with props := (e.guis control).props.SetRect rect }

def GetVisiblePaddingRect (R : RectOps) (e : GuiEngine) (control : Nat) : RectF :=
  (e.guis control).props.GetVisiblePaddingRect R

/-- Modelled from the spec: `Gui::TraverseTowardParents` is not under src. It calls
`fn` on the control, then on its parent, and so on up to the control without
parent (spec 4.3: along the ancestor chain, leaf to root). `fuel` bounds the
number of controls visited. -/
def TraverseTowardParents (fn : GuiEngine → Nat → GuiEngine) : Nat → GuiEngine → Nat → GuiEngine
  | 0, e, _ => e
  | fuel + 1, e, control =>
    let e1 := fn e control
    match (e1.guis control).parent with
    | some parent => TraverseTowardParents fn fuel e1 parent
    | none => e1

/-- The lambda of the press, release and move handlers: a control whose visible
padding rectangle holds the pixel centre gets the handler of the instance and then
the clonable handler with itself as argument. -/
def notifyIfInside (R : RectOps) (s : Signal) (eventData : CursorEvent)
    (pixelCenterCursorPos : Vector2f) (e : GuiEngine) (control : Nat) : GuiEngine :=
  if R.IsPointInside (e.GetVisiblePaddingRect R control) pixelCenterCursorPos then
    (e.fire (.perInstance control s eventData)).fire (.clonable control s control eventData)
  else e

/-- The statement `if (activeContextMenu) activeContextMenu->RemoveFromParent();`
of the press and release handlers. -/
def detachActive (e : GuiEngine) : GuiEngine :=
  match e.activeContextMenu with
  | some menu => e.RemoveFromParent menu
  | none => e

/-- The handler subscribed to `targetWindow->onMousePressed`. -/
def onMousePressed (R : RectOps) (fuel : Nat) (e : GuiEngine) (event : WindowEvent) : GuiEngine :=
  let eventData : CursorEvent := ⟨event.clientMousePos, ⟨0, 0⟩⟩
  let e := e.fire (.engine .MousePressed eventData)
  let e := { e with mousePosWhenPress := event.clientMousePos }
  let pixelCenterCursorPos := event.clientMousePos + ⟨0.5, 0.5⟩
  let e :=
    match e.hoveredGui with
    | some hovered =>
      TraverseTowardParents (notifyIfInside R .MousePressed eventData pixelCenterCursorPos)
        fuel e hovered
    | none => e
  detachActive e

/-- The block of the click walk that shows a context menu: it becomes the active
one, is added to the post process layer, and its rectangle gets the mouse position
as `left` and `top`. -/
def attachContextMenu (event : WindowEvent) (e : GuiEngine) (menu : Nat) : GuiEngine :=
  let e := { e with activeContextMenu := some menu }
  let e := e.Add e.postProcessLayer menu
  let rect := e.GetRect menu
  let rect := { rect with left := event.clientMousePos.x }
  let rect := { rect with top := event.clientMousePos.y }
  e.SetRect menu rect

/-- The lambda of the click walk of the release handler. -/
def clickFn (R : RectOps) (event : WindowEvent) (eventData : CursorEvent)
    (pixelCenterCursorPos : Vector2f) (e : GuiEngine) (control : Nat) : GuiEngine :=
  if R.IsPointInside (e.GetVisiblePaddingRect R control) pixelCenterCursorPos then
    let e := (e.fire (.perInstance control .MouseClicked eventData)).fire
      (.clonable control .MouseClicked control eventData)
    if event.mouseBtn = eMouseBtn.RIGHT then
      match (e.guis control).props.GetContextMenu with
      | some menu => if e.layers.length > 0 then attachContextMenu event e menu else e
      | none => e
    else e
  else e

/-- The handler subscribed to `targetWindow->onMouseReleased`. -/
def onMouseReleased (R : RectOps) (fuel : Nat) (e : GuiEngine) (event : WindowEvent) : GuiEngine :=
  let eventData : CursorEvent := ⟨event.clientMousePos, ⟨0, 0⟩⟩
  let e := e.fire (.engine .MouseReleased eventData)
  let bClick : Bool := e.mousePosWhenPress = event.clientMousePos
  let e := if bClick then e.fire (.engine .MouseClicked eventData) else e
  let e := detachActive e
  let pixelCenterCursorPos := event.clientMousePos + ⟨0.5, 0.5⟩
  match e.hoveredGui with
  | some hovered =>
    let e := TraverseTowardParents
      (notifyIfInside R .MouseReleased eventData pixelCenterCursorPos) fuel e hovered
    if bClick then
      let e := e.fire (.engine .MouseClicked eventData)
      TraverseTowardParents (clickFn R event eventData pixelCenterCursorPos) fuel e hovered
    else e
  | none => e

/-- The handler subscribed to `targetWindow->onMouseMoved`. -/
def onMouseMoved (R : RectOps) (fuel : Nat) (e : GuiEngine) (event : WindowEvent) : GuiEngine :=
  let eventData : CursorEvent := ⟨event.clientMousePos, event.mouseDelta⟩
  let e := e.fire (.engine .MouseMoved eventData)
  let pixelCenterCursorPos := event.clientMousePos + ⟨0.5, 0.5⟩
  match e.hoveredGui with
  | some hovered =>
    TraverseTowardParents (notifyIfInside R .MouseMoved eventData pixelCenterCursorPos)
      fuel e hovered
  | none => e

/-- The ancestor chain of the spec, for parent pointers `parent`: `chain` lists
`control`, its parent, and so on up to a control without parent. -/
def chainOf (parent : Nat → Option Nat) : Nat → List Nat → Bool
  | _, [] => false
  | control, [c] => decide (c = control) && decide (parent control = none)
  | control, c :: p :: rest =>
    decide (c = control) && decide (parent control = some p) && chainOf parent p (p :: rest)

/-- The ancestor chain of `control` in the heap of `e`. -/
def isChain (e : GuiEngine) (control : Nat) (chain : List Nat) : Bool :=
  chainOf (fun c => (e.guis c).parent) control chain

/-- The number of calls of the click handler of the engine made so far. -/
def engineClicks (e : GuiEngine) : Nat :=
  (e.fired.filter (fun n => match n with
    | .engine .MouseClicked _ => true
    | _ => false)).length

/-- The context menus the click walk attaches along `chain` for a right button
click at pixel centre `pixelCenterCursorPos`: those of the controls whose visible
padding rectangle holds it, in the order of the walk. -/
def menusAlong (R : RectOps) (e : GuiEngine) (pixelCenterCursorPos : Vector2f)
    (chain : List Nat) : List Nat :=
  chain.filterMap (fun c =>
    if R.IsPointInside (e.GetVisiblePaddingRect R c) pixelCenterCursorPos then
      (e.guis c).props.GetContextMenu
    else none)

/-- An engine for the examples. Address 0 is the post process layer, 1 a layer
with the child 2, a button with padding rectangle [0, 50] x [0, 50] that owns the
context menu 4; 4 has no parent. The button is hovered. -/
def demoEngine : GuiEngine :=
  { guis := fun a =>
      if a = 0 then ⟨⟨true, false, false, ⟨0, 100, 0, 100⟩, ⟨0, 100, 0, 100⟩, infiniteRect, none⟩,
        none, []⟩
      else if a = 1 then ⟨⟨true, false, true, ⟨0, 100, 0, 100⟩, ⟨0, 100, 0, 100⟩, infiniteRect, none⟩,
        none, [2]⟩
      else if a = 2 then ⟨⟨false, true, false, ⟨0, 50, 0, 50⟩, ⟨0, 50, 0, 50⟩, ⟨0, 100, 0, 100⟩,
        some 4⟩, some 1, []⟩
      else ⟨⟨false, true, false, ⟨0, 20, 0, 30⟩, ⟨0, 20, 0, 30⟩, infiniteRect, none⟩, none, []⟩
    layers := [1]
    postProcessLayer := 0
    hoveredGui := some 2
    activeContextMenu := none
    mousePosWhenPress := ⟨0, 0⟩
    fired := [] }

/-- The same engine with a second context menu, 5, owned by the layer 1. -/
def demoEngineTwoMenus : GuiEngine :=
  { demoEngine with guis := fun a =>
      if a = 1 then ⟨⟨true, false, true, ⟨0, 100, 0, 100⟩, ⟨0, 100, 0, 100⟩, infiniteRect, some 5⟩,
        none, [2]⟩
      else demoEngine.guis a }

/-- The control `menu` is shown by `e` at `pos`: it is the active context menu, a
child of the post process layer `overlay`, and `left` and `top` of its rectangle
are the coordinates of `pos`. -/
def showsMenuAt (e : GuiEngine) (overlay : Nat) (pos : Vector2f) (menu : Nat) : Prop :=
  e.activeContextMenu = some menu ∧
  (e.guis menu).parent = some overlay ∧
  menu ∈ (e.guis overlay).children ∧
  (e.GetRect menu).left = pos.x ∧ (e.GetRect menu).top = pos.y

/-- On the controls of `chain` the engine `s` has the parent pointers and the
attributes of `e`, and it has the layers and the post process layer of `e`. -/
def agreesOn (e s : GuiEngine) (chain : List Nat) : Prop :=
  s.layers = e.layers ∧ s.postProcessLayer = e.postProcessLayer ∧
  ∀ c ∈ chain, (s.guis c).parent = (e.guis c).parent ∧ (s.guis c).props = (e.guis c).props

end GuiEngine

end Input

end inl.gui

/-! ## NodePanel: theorems -/

namespace inl.tool

namespace StdMap

theorem find_eq_none_iff {κ ν : Type} [DecidableEq κ] (m : StdMap κ ν) (k : κ) : m.find k = none ↔ k ∉ m.keys := by
  simp only [find, keys, Option.map_eq_none', List.find?_eq_none, List.mem_map, not_exists,
    not_and, decide_eq_true_eq]

theorem find_isSome_iff {κ ν : Type} [DecidableEq κ] (m : StdMap κ ν) (k : κ) : (m.find k).isSome ↔ k ∈ m.keys := by
  rw [← not_iff_not, ← find_eq_none_iff]
  cases m.find k <;> simp

theorem insert_of_mem {κ ν : Type} [DecidableEq κ] (m : StdMap κ ν) (k : κ) (v : ν) (h : k ∈ m.keys) :
    m.insert k v = (m, false) := by
  unfold insert
  rw [dif_pos h]

theorem insert_entries_of_not_mem {κ ν : Type} [DecidableEq κ] (m : StdMap κ ν) (k : κ) (v : ν) (h : k ∉ m.keys) :
    (m.insert k v).1.entries = m.entries ++ [(k, v)] ∧ (m.insert k v).2 = true := by
  unfold insert
  rw [dif_neg h]
  exact ⟨rfl, rfl⟩

theorem mem_keys_insert {κ ν : Type} [DecidableEq κ] (m : StdMap κ ν) (k : κ) (v : ν) : k ∈ (m.insert k v).1.keys := by
  by_cases h : k ∈ m.keys
  · rw [insert_of_mem m k v h]; exact h
  · simp [keys, (insert_entries_of_not_mem m k v h).1]

theorem keys_mapValues {κ ν : Type} (m : StdMap κ ν) (f : κ → ν → ν) : (m.mapValues f).keys = m.keys := by
  simp [keys, mapValues, List.map_map, Function.comp_def]

theorem keys_modify {κ ν : Type} [DecidableEq κ] (m : StdMap κ ν) (k : κ) (f : ν → ν) : (m.modify k f).keys = m.keys :=
  keys_mapValues m _

/-- With pairwise distinct keys, erasing the first entry of key `k` leaves exactly
the entries of the other keys. -/
theorem mem_eraseP_key {κ ν : Type} [DecidableEq κ] (l : List (κ × ν)) (hl : (l.map Prod.fst).Nodup) (k : κ) (e : κ × ν) :
    e ∈ l.eraseP (fun e => e.1 = k) ↔ e ∈ l ∧ e.1 ≠ k := by
  induction l with
  | nil => simp
  | cons a l ih =>
    rw [List.map_cons, List.nodup_cons] at hl
    by_cases ha : a.1 = k
    · rw [List.eraseP_cons_of_pos (by simpa using ha)]
      constructor
      · intro he
        refine ⟨List.mem_cons_of_mem _ he, ?_⟩
        intro hek
        exact hl.1 (List.mem_map.2 ⟨e, he, by rw [hek, ha]⟩)
      · rintro ⟨he, hek⟩
        rcases List.mem_cons.1 he with rfl | he
        · exact absurd ha hek
        · exact he
    · rw [List.eraseP_cons_of_neg (by simpa using ha), List.mem_cons, ih hl.2, List.mem_cons]
      constructor
      · rintro (rfl | ⟨he, hek⟩)
        · exact ⟨Or.inl rfl, ha⟩
        · exact ⟨Or.inr he, hek⟩
      · rintro ⟨rfl | he, hek⟩
        · exact Or.inl rfl
        · exact Or.inr ⟨he, hek⟩

theorem mem_erase_entries {κ ν : Type} [DecidableEq κ] (m : StdMap κ ν) (k : κ) (e : κ × ν) :
    e ∈ (m.erase k).entries ↔ e ∈ m.entries ∧ e.1 ≠ k :=
  mem_eraseP_key m.entries m.nodup k e

theorem not_mem_keys_erase {κ ν : Type} [DecidableEq κ] (m : StdMap κ ν) (k : κ) : k ∉ (m.erase k).keys := by
  intro h
  obtain ⟨e, he, hk⟩ := List.mem_map.1 h
  exact ((mem_erase_entries m k e).1 he).2 hk

theorem find_eraseP_ne {κ ν : Type} [DecidableEq κ] (l : List (κ × ν)) (k k' : κ) (h : k' ≠ k) :
    (l.eraseP (fun e => e.1 = k)).find? (fun e => e.1 = k') = l.find? (fun e => e.1 = k') := by
  induction l with
  | nil => rfl
  | cons a l ih =>
    by_cases ha : a.1 = k
    · rw [List.eraseP_cons_of_pos (by simpa using ha)]
      have : ¬ a.1 = k' := fun h' => h (h' ▸ ha)
      rw [List.find?_cons_of_neg _ (by simpa using this)]
    · rw [List.eraseP_cons_of_neg (by simpa using ha)]
      by_cases hb : a.1 = k'
      · rw [List.find?_cons_of_pos _ (by simpa using hb), List.find?_cons_of_pos _ (by simpa using hb)]
      · rw [List.find?_cons_of_neg _ (by simpa using hb), List.find?_cons_of_neg _ (by simpa using hb), ih]

theorem find_erase_ne {κ ν : Type} [DecidableEq κ] (m : StdMap κ ν) (k k' : κ) (h : k' ≠ k) :
    (m.erase k).find k' = m.find k' := by
  simp only [find, erase, find_eraseP_ne m.entries k k' h]

/-- With pairwise distinct keys there is at most one entry of a given key. -/
theorem filter_key_length_le {κ ν : Type} [DecidableEq κ] (l : List (κ × ν)) (hl : (l.map Prod.fst).Nodup) (k : κ) :
    (l.filter (fun e => e.1 = k)).length ≤ 1 := by
  induction l with
  | nil => simp
  | cons a l ih =>
    rw [List.map_cons, List.nodup_cons] at hl
    by_cases ha : a.1 = k
    · have hnil : l.filter (fun e => decide (e.1 = k)) = [] := by
        rw [List.filter_eq_nil_iff]
        intro e he hek
        exact hl.1 (List.mem_map.2 ⟨e, he, by rw [ha]; simpa using hek⟩)
      rw [List.filter_cons_of_pos (by simpa using ha), hnil]
      simp
    · rw [List.filter_cons_of_neg (by simpa using ha)]
      exact ih hl.2

theorem filter_key_length_eq_one {κ ν : Type} [DecidableEq κ] (m : StdMap κ ν) (k : κ) (h : k ∈ m.keys) :
    (m.entries.filter (fun e => e.1 = k)).length = 1 := by
  refine le_antisymm (filter_key_length_le m.entries m.nodup k) ?_
  obtain ⟨e, he, hk⟩ := List.mem_map.1 h
  exact List.length_pos_of_mem (List.mem_filter.2 ⟨he, by simpa using hk⟩)

end StdMap

namespace NodePanel

theorem mem_keys_AddLink (g : PortGeometry) (fresh : Nat) (p : NodePanel)
    (s : NodeId) (sp : Int) (t : NodeId) (tp : Int) :
    (⟨s, sp, t, tp⟩ : ArrowKey) ∈ (AddLink g fresh p s sp t tp).m_arrows.keys := by
  unfold AddLink
  dsimp only
  split
  · rw [StdMap.keys_modify]; exact StdMap.mem_keys_insert _ _ _
  · exact StdMap.mem_keys_insert _ _ _

theorem AddLink_of_mem (g : PortGeometry) (fresh : Nat) (p : NodePanel)
    (s : NodeId) (sp : Int) (t : NodeId) (tp : Int)
    (h : (⟨s, sp, t, tp⟩ : ArrowKey) ∈ p.m_arrows.keys) :
    AddLink g fresh p s sp t tp = p := by
  unfold AddLink
  dsimp only
  rw [StdMap.insert_of_mem _ _ _ h]
  rfl

theorem RemoveLink_of_mem (p : NodePanel) (s : NodeId) (sp : Int) (t : NodeId) (tp : Int)
    (h : (⟨s, sp, t, tp⟩ : ArrowKey) ∈ p.m_arrows.keys) :
    p.RemoveLink s sp t tp = (.ok (), { p with m_arrows := p.m_arrows.erase ⟨s, sp, t, tp⟩ }) := by
  unfold RemoveLink
  dsimp only
  have := (StdMap.find_isSome_iff p.m_arrows ⟨s, sp, t, tp⟩).2 h
  cases hf : p.m_arrows.find ⟨s, sp, t, tp⟩ with
  | none => rw [hf] at this; exact absurd this (by simp)
  | some a => rfl

theorem RemoveLink_of_not_mem (p : NodePanel) (s : NodeId) (sp : Int) (t : NodeId) (tp : Int)
    (h : (⟨s, sp, t, tp⟩ : ArrowKey) ∉ p.m_arrows.keys) :
    p.RemoveLink s sp t tp =
      (.error (.InvalidArgumentException "There is no link between specified nodes."), p) := by
  unfold RemoveLink
  dsimp only
  rw [(StdMap.find_eq_none_iff p.m_arrows ⟨s, sp, t, tp⟩).2 h]

/-- C2. `RemoveLink(k)` throws `InvalidArgumentException` exactly when `k` is not a
key of the link map; a failing call leaves the panel (so the link map) as it was; a
successful call leaves exactly the links of the other keys, each unchanged; and
after `AddLink(k)` a first `RemoveLink(k)` succeeds and a second one throws. -/
theorem RemoveLink_throws_iff_unknown_key (g : PortGeometry) (fresh : Nat) (p : NodePanel)
    (s : NodeId) (sp : Int) (t : NodeId) (tp : Int) :
    ((∃ msg, (p.RemoveLink s sp t tp).1 = .error (.InvalidArgumentException msg)) ↔
        (⟨s, sp, t, tp⟩ : ArrowKey) ∉ p.m_arrows.keys) ∧
    ((p.RemoveLink s sp t tp).1 = .ok () ↔ (⟨s, sp, t, tp⟩ : ArrowKey) ∈ p.m_arrows.keys) ∧
    ((p.RemoveLink s sp t tp).1 ≠ .ok () → (p.RemoveLink s sp t tp).2 = p) ∧
    ((p.RemoveLink s sp t tp).1 = .ok () →
        (⟨s, sp, t, tp⟩ : ArrowKey) ∉ (p.RemoveLink s sp t tp).2.m_arrows.keys ∧
        (∀ e, e ∈ (p.RemoveLink s sp t tp).2.m_arrows.entries ↔
            e ∈ p.m_arrows.entries ∧ e.1 ≠ ⟨s, sp, t, tp⟩) ∧
        (∀ k, k ≠ (⟨s, sp, t, tp⟩ : ArrowKey) →
            (p.RemoveLink s sp t tp).2.m_arrows.find k = p.m_arrows.find k)) ∧
    (((AddLink g fresh p s sp t tp).RemoveLink s sp t tp).1 = .ok () ∧
      ∃ msg, ((((AddLink g fresh p s sp t tp).RemoveLink s sp t tp).2).RemoveLink s sp t tp).1 =
        .error (.InvalidArgumentException msg)) := by
  have hadd := mem_keys_AddLink g fresh p s sp t tp
  by_cases h : (⟨s, sp, t, tp⟩ : ArrowKey) ∈ p.m_arrows.keys
  · rw [RemoveLink_of_mem p s sp t tp h, RemoveLink_of_mem _ s sp t tp hadd]
    refine ⟨by simp [h], by simp [h], by simp, fun _ => ⟨?_, ?_, ?_⟩, rfl, ?_⟩
    · exact StdMap.not_mem_keys_erase _ _
    · exact fun e => StdMap.mem_erase_entries _ _ e
    · exact fun k hk => StdMap.find_erase_ne _ _ k hk
    · rw [RemoveLink_of_not_mem _ s sp t tp (StdMap.not_mem_keys_erase _ _)]
      exact ⟨_, rfl⟩
  · rw [RemoveLink_of_not_mem p s sp t tp h, RemoveLink_of_mem _ s sp t tp hadd]
    refine ⟨by simp [h], by simp [h], fun _ => rfl, fun hc => by simp at hc, rfl, ?_⟩
    rw [RemoveLink_of_not_mem _ s sp t tp (StdMap.not_mem_keys_erase _ _)]
    exact ⟨_, rfl⟩

/-- On the example panel the link (1, 0, 2, 0) is removed once, and the second
removal throws; the link (2, 0, 1, 0) was never added and its removal throws. -/
theorem RemoveLink_throws_iff_unknown_key_witness :
    (demoPanel.RemoveLink 1 0 2 0).1 = .ok () ∧
    (∃ msg, (demoPanel.RemoveLink 2 0 1 0).1 = .error (.InvalidArgumentException msg)) :=
  ⟨(RemoveLink_throws_iff_unknown_key demoGeometry 100
      ((NodePanel.new.AddNode 1).AddNode 2) 1 0 2 0).2.2.2.2.1,
   (RemoveLink_throws_iff_unknown_key demoGeometry 100 demoPanel 2 0 1 0).1.2 (by decide)⟩

/-- C3. `AddLink(K)` twice gives the state of one `AddLink(K)`: the second call
changes nothing (layout children, the arrow stored for `K`, every other link), and
the link map holds exactly one link for `K`. -/
theorem AddLink_twice_eq_once (g : PortGeometry) (fresh₁ fresh₂ : Nat) (p : NodePanel)
    (s : NodeId) (sp : Int) (t : NodeId) (tp : Int) :
    AddLink g fresh₂ (AddLink g fresh₁ p s sp t tp) s sp t tp = AddLink g fresh₁ p s sp t tp ∧
    ((AddLink g fresh₂ (AddLink g fresh₁ p s sp t tp) s sp t tp).m_arrows.entries.filter
        (fun e => e.1 = (⟨s, sp, t, tp⟩ : ArrowKey))).length = 1 ∧
    (AddLink g fresh₂ (AddLink g fresh₁ p s sp t tp) s sp t tp).m_layout.children =
        (AddLink g fresh₁ p s sp t tp).m_layout.children ∧
    (AddLink g fresh₂ (AddLink g fresh₁ p s sp t tp) s sp t tp).m_arrows.entries =
        (AddLink g fresh₁ p s sp t tp).m_arrows.entries := by
  have hadd := mem_keys_AddLink g fresh₁ p s sp t tp
  have h2 := AddLink_of_mem g fresh₂ _ s sp t tp hadd
  rw [h2]
  exact ⟨rfl, StdMap.filter_key_length_eq_one _ _ hadd, rfl, rfl⟩

/-- Adding the link (1, 0, 2, 0) to the example panel, which has it, changes
nothing: there is still one entry for that key. -/
theorem AddLink_twice_eq_once_witness :
    AddLink demoGeometry 101 demoPanel 1 0 2 0 = demoPanel ∧
    demoPanel.m_arrows.entries.length = 1 :=
  ⟨(AddLink_twice_eq_once demoGeometry 100 101 ((NodePanel.new.AddNode 1).AddNode 2) 1 0 2 0).1,
   by decide⟩

/-- C4. A port drag that ends on a port of the other direction fires exactly one
`OnAddLink`, from the output port to the input port, whichever of the two was
dragged; a drag that ends on a port of the same direction, on a control that is
not a port, or on nothing fires none. -/
theorem OnPortDragEnd_link_orientation (p : NodePanel) (dragEnd : Vec2) :
    (∀ out inp : PortControl, out.IsInput = false → inp.IsInput = true →
      (OnPortDragEnd p (some (.port out)) dragEnd (some (.port inp))).2 =
          [⟨out.GetNode, out.GetPortIndex, inp.GetNode, inp.GetPortIndex⟩] ∧
      (OnPortDragEnd p (some (.port inp)) dragEnd (some (.port out))).2 =
          [⟨out.GetNode, out.GetPortIndex, inp.GetNode, inp.GetPortIndex⟩]) ∧
    (∀ port targetPort : PortControl, port.IsInput = targetPort.IsInput →
      (OnPortDragEnd p (some (.port port)) dragEnd (some (.port targetPort))).2 = []) ∧
    (∀ (port : PortControl) (target : Option Control), asPort target = none →
      (OnPortDragEnd p (some (.port port)) dragEnd target).2 = []) := by
  refine ⟨?_, ?_, ?_⟩
  · intro out inp ho hi
    simp only [PortControl.IsInput] at ho hi
    simp [OnPortDragEnd, asPort, PortControl.IsInput, PortControl.IsOutput, ho, hi]
  · intro port targetPort h
    simp only [PortControl.IsInput] at h
    simp [OnPortDragEnd, asPort, PortControl.IsInput, h]
  · intro port target h
    simp only [OnPortDragEnd, h, show asPort (some (Control.port port)) = some port from rfl]

/-- The drag from output port 0 of node 1 to input port 2 of node 5, and the drag
the other way round, both request the link (1, 0, 5, 2). -/
theorem OnPortDragEnd_link_orientation_witness :
    (OnPortDragEnd NodePanel.new (some (.port ⟨1, 0, false⟩)) ⟨3, 4⟩ (some (.port ⟨5, 2, true⟩))).2
        = [⟨1, 0, 5, 2⟩] ∧
    (OnPortDragEnd NodePanel.new (some (.port ⟨5, 2, true⟩)) ⟨3, 4⟩ (some (.port ⟨1, 0, false⟩))).2
        = [⟨1, 0, 5, 2⟩] :=
  (OnPortDragEnd_link_orientation NodePanel.new ⟨3, 4⟩).1 ⟨1, 0, false⟩ ⟨5, 2, true⟩ rfl rfl

theorem Vec2_add_x (a b : Vec2) : (a + b).x = a.x + b.x := rfl
theorem Vec2_add_y (a b : Vec2) : (a + b).y = a.y + b.y := rfl
theorem Vec2_sub_x (a b : Vec2) : (a - b).x = a.x - b.x := rfl
theorem Vec2_sub_y (a b : Vec2) : (a - b).y = a.y - b.y := rfl

theorem Vec2_telescope (a o t u : Vec2) : a + (t - o) + (u - t) = a + (u - o) := by
  ext <;> simp only [Vec2_add_x, Vec2_add_y, Vec2_sub_x, Vec2_sub_y] <;> ring

theorem Vec2_add_sub_self (a o : Vec2) : a + (o - o) = a := by
  ext <;> simp only [Vec2_add_x, Vec2_add_y, Vec2_sub_x, Vec2_sub_y] <;> ring

/-- The loop of `OffsetAllNodes` over a list of pairwise distinct nodes: each listed
node moves by the offset once, and the node set and the pan origin stay. -/
theorem offset_loop (offset : Vec2) (l : List NodeId) (hl : l.Nodup) (q : NodePanel) :
    (l.foldl (offsetNode offset) q).m_nodes = q.m_nodes ∧
    (l.foldl (offsetNode offset) q).m_panOrigin = q.m_panOrigin ∧
    ∀ n, (l.foldl (offsetNode offset) q).m_layout.position (.node n) =
      if n ∈ l then q.m_layout.position (.node n) + offset else q.m_layout.position (.node n) := by
  induction l generalizing q with
  | nil => simp
  | cons a l ih =>
    rw [List.nodup_cons] at hl
    obtain ⟨h1, h2, h3⟩ := ih hl.2 (offsetNode offset q a)
    rw [List.foldl_cons]
    refine ⟨h1, h2, fun n => ?_⟩
    rw [h3 n]
    simp only [offsetNode, AbsoluteLayout.SetPosition, AbsoluteLayout.GetPosition,
      Control.node.injEq, List.mem_cons]
    by_cases hn : n = a
    · subst hn; simp [hl.1]
    · simp [hn]

theorem OnPanView_layout (g : PortGeometry) (p : NodePanel) (t : Vec2) :
    (OnPanView g p (some .layout) t).m_nodes = p.m_nodes ∧
    (OnPanView g p (some .layout) t).m_panOrigin = t ∧
    (∀ n, n ∈ p.m_nodes.elems →
      (OnPanView g p (some .layout) t).m_layout.GetPosition (.node n) =
        p.m_layout.GetPosition (.node n) + (t - p.m_panOrigin)) ∧
    (∀ e, e ∈ (OnPanView g p (some .layout) t).m_arrows.entries →
      (e.2.begin, e.2.finish) = arrowEndPoints g (OnPanView g p (some .layout) t).m_layout e.1) := by
  obtain ⟨h1, h2, h3⟩ := offset_loop (t - p.m_panOrigin) p.m_nodes.elems p.m_nodes.nodup
    { p with m_panOrigin := t }
  simp only [OnPanView, if_true, UpdateArrowPositions, OffsetAllNodes]
  refine ⟨h1, h2, ?_, ?_⟩
  · intro n hn
    simp only [AbsoluteLayout.GetPosition]
    rw [h3 n, if_pos hn]
  · intro e he
    simp only [StdMap.mapValues, List.mem_map] at he
    obtain ⟨e', _, rfl⟩ := he
    rfl

theorem panGesture_layout (g : PortGeometry) (ts : List Vec2) (q : NodePanel) :
    (ts.foldl (fun q t => OnPanView g q (some .layout) t) q).m_nodes = q.m_nodes ∧
    ∀ n, n ∈ q.m_nodes.elems →
      (ts.foldl (fun q t => OnPanView g q (some .layout) t) q).m_layout.GetPosition (.node n) =
        q.m_layout.GetPosition (.node n) + (ts.getLast?.getD q.m_panOrigin - q.m_panOrigin) := by
  induction ts generalizing q with
  | nil =>
    refine ⟨rfl, fun n _ => ?_⟩
    simp only [List.foldl_nil, List.getLast?_nil, Option.getD_none]
    exact (Vec2_add_sub_self _ _).symm
  | cons t ts ih =>
    obtain ⟨h1, h2, h3, _⟩ := OnPanView_layout g q t
    obtain ⟨i1, i2⟩ := ih (OnPanView g q (some .layout) t)
    rw [List.foldl_cons]
    refine ⟨i1.trans h1, fun n hn => ?_⟩
    rw [i2 n (h1 ▸ hn), h3 n hn, h2, List.getLast?_cons, Option.getD_some, Vec2_telescope]

/-- C9. `OffsetAllNodes(O)` moves each node of the panel by exactly `O` and keeps
the node set; a pan gesture on the layout, begun at `o` and dragged through
`t1 .. tn`, leaves each node at its initial position plus `tn - o` (nothing moves
when there is no drag target); after every `OnPanView` on the layout each link has
the end points `UpdateArrowPosition` computes from the layout as it is then; and a
gesture whose control is not the layout leaves the panel as it was. -/
theorem pan_moves_every_node_by_offset (g : PortGeometry) (p : NodePanel) :
    (∀ offset : Vec2, (OffsetAllNodes p offset).m_nodes = p.m_nodes ∧
      ∀ n, n ∈ p.m_nodes.elems →
        (OffsetAllNodes p offset).m_layout.GetPosition (.node n) =
          p.m_layout.GetPosition (.node n) + offset) ∧
    (∀ (o : Vec2) (ts : List Vec2),
      (panGesture g p (some .layout) o ts).m_nodes = p.m_nodes ∧
      ∀ n, n ∈ p.m_nodes.elems →
        (panGesture g p (some .layout) o ts).m_layout.GetPosition (.node n) =
          p.m_layout.GetPosition (.node n) + (ts.getLast?.getD o - o)) ∧
    (∀ (t : Vec2) (e : ArrowKey × ArrowControl),
      e ∈ (OnPanView g p (some .layout) t).m_arrows.entries →
      (e.2.begin, e.2.finish) = arrowEndPoints g (OnPanView g p (some .layout) t).m_layout e.1) ∧
    (∀ (control : Option Control) (o : Vec2) (ts : List Vec2), control ≠ some .layout →
      panGesture g p control o ts = p) := by
  refine ⟨?_, ?_, ?_, ?_⟩
  · intro offset
    obtain ⟨h1, _, h3⟩ := offset_loop offset p.m_nodes.elems p.m_nodes.nodup p
    refine ⟨h1, fun n hn => ?_⟩
    simp only [AbsoluteLayout.GetPosition, OffsetAllNodes]
    rw [h3 n, if_pos hn]
  · intro o ts
    exact panGesture_layout g ts (OnPanViewBegin p (some .layout) o)
  · intro t e he
    exact (OnPanView_layout g p t).2.2.2 e he
  · intro control o ts hc
    unfold panGesture
    simp only [OnPanViewBegin, OnPanView, if_neg hc]
    induction ts with
    | nil => rfl
    | cons t ts ih => simp

/-- On the example panel, a pan from (0, 0) through (1, 1) to (3, 5) moves node 1
by (3, 5) - (0, 0). -/
theorem pan_moves_every_node_by_offset_witness :
    1 ∈ demoPanel.m_nodes.elems ∧
    (panGesture demoGeometry demoPanel (some .layout) ⟨0, 0⟩ [⟨1, 1⟩, ⟨3, 5⟩]).m_layout.GetPosition
        (.node 1) =
      demoPanel.m_layout.GetPosition (.node 1) + ((⟨3, 5⟩ : Vec2) - ⟨0, 0⟩) :=
  ⟨by decide,
   ((pan_moves_every_node_by_offset demoGeometry demoPanel).2.1 ⟨0, 0⟩ [⟨1, 1⟩, ⟨3, 5⟩]).2 1
     (by decide)⟩

end NodePanel

end inl.tool

/-! ## BitConverter: theorems -/

namespace inl.BitConverter

theorem FromBytes_eq_zero (n : Nat) (ind : List Byte) (h : ind.length = n)
    (data : Option (List Byte)) : FromBytes n ind data = List.replicate n 0 := by
  simp [FromBytes, memcpy, newZeroed, List.drop_eq_nil_of_le (le_of_eq h)]

theorem ToBytes_eq (n : Nat) (v : List Byte) (h : v.length = n) : ToBytes n v = v := by
  simp [ToBytes, memcpy, newZeroed, List.take_of_length_le (le_of_eq h)]

/-- C10. `FromBytes<T>` does not read the buffer it is given: any two buffers (or
null) give the same value, the one whose `sizeof(T)` bytes are all zero. `ToBytes`
yields exactly the bytes of the value, so the round trip
`FromBytes<T>(ToBytes(v)) = v` holds exactly for the all-zero `v`. -/
theorem FromBytes_ignores_buffer (sizeofT : Nat) (indeterminate : List Byte)
    (hind : indeterminate.length = sizeofT) (data₁ data₂ : Option (List Byte))
    (v : List Byte) (hv : v.length = sizeofT) :
    FromBytes sizeofT indeterminate data₁ = FromBytes sizeofT indeterminate data₂ ∧
    FromBytes sizeofT indeterminate data₁ = List.replicate sizeofT 0 ∧
    ToBytes sizeofT v = v ∧
    (FromBytes sizeofT indeterminate (some (ToBytes sizeofT v)) = v ↔
      v = List.replicate sizeofT 0) := by
  rw [FromBytes_eq_zero sizeofT indeterminate hind data₁,
    FromBytes_eq_zero sizeofT indeterminate hind data₂,
    FromBytes_eq_zero sizeofT indeterminate hind _, ToBytes_eq sizeofT v hv]
  exact ⟨rfl, rfl, rfl, eq_comm⟩

/-- For a four byte type: the bytes 1, 2, 3, 4 do not come back from the round
trip, `FromBytes` gives four zero bytes for them as for a null pointer. -/
theorem FromBytes_ignores_buffer_witness :
    FromBytes 4 [9, 9, 9, 9] (some [1, 2, 3, 4]) = FromBytes 4 [9, 9, 9, 9] none ∧
    FromBytes 4 [9, 9, 9, 9] (some [1, 2, 3, 4]) = [0, 0, 0, 0] ∧
    ToBytes 4 [1, 2, 3, 4] = [1, 2, 3, 4] ∧
    (FromBytes 4 [9, 9, 9, 9] (some (ToBytes 4 [1, 2, 3, 4])) = [1, 2, 3, 4] ↔
      ([1, 2, 3, 4] : List Byte) = List.replicate 4 0) :=
  FromBytes_ignores_buffer 4 [9, 9, 9, 9] rfl (some [1, 2, 3, 4]) none [1, 2, 3, 4] rfl

end inl.BitConverter

/-! ## GuiEngine::Update: theorems -/

namespace inl.gui.Frame

mutual
theorem visitControl_eq_foldl {σ : Type} (fn : σ → Gui → σ) :
    ∀ (g : Gui) (s : σ), visitControl fn g s = (preorder g).foldl fn s
  | .mk a p cs, s => by
    simp only [visitControl, preorder, List.foldl_cons]
    exact visitChildren_eq_foldl fn cs _
theorem visitChildren_eq_foldl {σ : Type} (fn : σ → Gui → σ) :
    ∀ (cs : List Gui) (s : σ), visitChildren fn cs s = (preorderList cs).foldl fn s
  | [], s => by simp only [visitChildren, preorderList, List.foldl_nil]
  | c :: rest, s => by
    simp only [visitChildren, preorderList, List.foldl_append]
    rw [visitControl_eq_foldl fn c s]
    exact visitChildren_eq_foldl fn rest _
end

theorem foldl_visitControl {σ : Type} (fn : σ → Gui → σ) (l : List Gui) (s : σ) :
    l.foldl (fun s layer => visitControl fn layer s) s = (preorderList l).foldl fn s := by
  induction l generalizing s with
  | nil => simp only [List.foldl_nil, preorderList]
  | cons a l ih =>
    simp only [List.foldl_cons, preorderList, List.foldl_append]
    rw [ih, visitControl_eq_foldl]

theorem TraverseGuiControls_eq_foldl {σ : Type} (e : GuiEngine) (fn : σ → Gui → σ) (s : σ) :
    e.TraverseGuiControls fn s = e.allControls.foldl fn s :=
  foldl_visitControl fn _ s

/-- Overwriting a best match along a list leaves the last match, or the start value
when nothing matches. -/
theorem foldl_hoverSearchFn (R : RectOps) (p : Vector2f) (l : List Gui) (init : Option Nat) :
    l.foldl (hoverSearchFn R p) init =
      match (l.filter (isHoverCandidate R p)).getLast? with
      | some c => some c.addr
      | none => init := by
  induction l generalizing init with
  | nil => rfl
  | cons a l ih =>
    rw [List.foldl_cons, ih]
    by_cases ha : isHoverCandidate R p a = true
    · rw [List.filter_cons_of_pos ha, List.getLast?_cons]
      cases h : (l.filter (isHoverCandidate R p)).getLast? with
      | none => simp [hoverSearchFn, ha]
      | some c => simp
    · rw [List.filter_cons_of_neg ha]
      cases h : (l.filter (isHoverCandidate R p)).getLast? with
      | none => simp [hoverSearchFn, ha]
      | some c => simp

mutual
theorem traverseControls_idem (R : RectOps) :
    ∀ (g : Gui) (clip : RectF),
      traverseControls R (traverseControls R g clip) clip = traverseControls R g clip
  | .mk a p cs, clip => by
    simp only [traverseControls, GuiProps.SetVisibleRect, GuiProps.IsChildrenClipEnabled,
      GuiProps.GetPaddingRect]
    rw [traverseChildren_idem R cs _]
theorem traverseChildren_idem (R : RectOps) :
    ∀ (cs : List Gui) (clip : RectF),
      traverseChildren R (traverseChildren R cs clip) clip = traverseChildren R cs clip
  | [], _ => by simp only [traverseChildren]
  | c :: rest, clip => by
    simp only [traverseChildren]
    rw [traverseControls_idem R c clip, traverseChildren_idem R rest clip]
end

theorem clipPass_idem (R : RectOps) (e : GuiEngine) : clipPass R (clipPass R e) = clipPass R e := by
  simp only [clipPass, List.map_map, traverseControls_idem]
  congr 1
  apply List.map_congr_left
  intro g _
  exact traverseControls_idem R g _

theorem Update_hoveredGui (R : RectOps) (e : GuiEngine) (w : Window)
    (hf : w.IsFocused = true) (hz : e.IsHoverFreezed = false) :
    (e.Update R w).hoveredGui =
      (((clipPass R e).allControls.filter
        (isHoverCandidate R (w.GetClientCursorPos + ⟨0.5, 0.5⟩))).getLast?).map Gui.addr := by
  have hz' : (clipPass R e).IsHoverFreezed = false := hz
  simp only [GuiEngine.Update, hf, hz', Bool.not_true, Bool.not_false, if_true, if_false,
    Bool.false_eq_true]
  rw [TraverseGuiControls_eq_foldl, foldl_hoverSearchFn]
  cases ((clipPass R e).allControls.filter
      (isHoverCandidate R (w.GetClientCursorPos + ⟨0.5, 0.5⟩))).getLast? <;> rfl

theorem Update_clipPass (R : RectOps) (e : GuiEngine) (w : Window) (hf : w.IsFocused = true) :
    (e.Update R w).layers = (clipPass R e).layers ∧
    (e.Update R w).postProcessLayer = (clipPass R e).postProcessLayer ∧
    (e.Update R w).bHoverFreezed = e.bHoverFreezed := by
  simp only [GuiEngine.Update, hf, Bool.not_true, if_false, Bool.false_eq_true]
  split <;> exact ⟨rfl, rfl, rfl⟩

/-- C6. With the window focused and the hover not frozen, the control `Update`
makes the hovered one is the last control, in depth-first pre-order over the
layers followed by the overlay layer, that is not a layer, is hoverable and whose
visible padding rectangle (as the clip pass of this `Update` leaves it) contains
the cursor position plus (0.5, 0.5); `none` when there is none. It is the same for
every engine with these layers, whatever was hovered before, and a second `Update`
with the same cursor position gives it again. -/
theorem Update_hover_is_last_match (R : RectOps) (e : GuiEngine) (w : Window)
    (hf : w.IsFocused = true) (hz : e.IsHoverFreezed = false) :
    (e.Update R w).hoveredGui =
      (((clipPass R e).allControls.filter (fun control =>
          !control.props.IsLayer && control.props.IsHoverable &&
            R.IsPointInside (control.props.GetVisiblePaddingRect R)
              (w.GetClientCursorPos + ⟨0.5, 0.5⟩))).getLast?).map Gui.addr ∧
    (∀ e' : GuiEngine, e'.layers = e.layers → e'.postProcessLayer = e.postProcessLayer →
      e'.IsHoverFreezed = false → (e'.Update R w).hoveredGui = (e.Update R w).hoveredGui) ∧
    ((e.Update R w).Update R w).hoveredGui = (e.Update R w).hoveredGui := by
  refine ⟨Update_hoveredGui R e w hf hz, ?_, ?_⟩
  · intro e' hl hp hz'
    rw [Update_hoveredGui R e' w hf hz', Update_hoveredGui R e w hf hz]
    simp only [clipPass, GuiEngine.allControls, hl, hp]
  · obtain ⟨h1, h2, h3⟩ := Update_clipPass R e w hf
    have hz2 : (e.Update R w).IsHoverFreezed = false := by
      simp only [GuiEngine.IsHoverFreezed, h3]; exact hz
    rw [Update_hoveredGui R (e.Update R w) w hf hz2, Update_hoveredGui R e w hf hz]
    have : (clipPass R (e.Update R w)).allControls = (clipPass R e).allControls := by
      have := clipPass_idem R e
      simp only [clipPass, GuiEngine.allControls, h1, h2] at this ⊢
      simp only [GuiEngine.mk.injEq] at this
      rw [this.1, this.2.1]
    rw [this]

/-- On the example engine with the cursor at (45, 45), inside both children of the
layer, the later child 3 is hovered. -/
theorem Update_hover_is_last_match_witness :
    (demoEngine.Update demoRectOps ⟨true, ⟨45, 45⟩⟩).hoveredGui = some 3 ∧
    ((demoEngine.Update demoRectOps ⟨true, ⟨45, 45⟩⟩).Update demoRectOps ⟨true, ⟨45, 45⟩⟩).hoveredGui
      = (demoEngine.Update demoRectOps ⟨true, ⟨45, 45⟩⟩).hoveredGui :=
  ⟨by decide!, (Update_hover_is_last_match demoRectOps demoEngine ⟨true, ⟨45, 45⟩⟩ rfl rfl).2.2⟩

theorem traverseControls_visibleRect (R : RectOps) (g : Gui) (clip : RectF) :
    (traverseControls R g clip).props.visibleRect = clip := by
  cases g with
  | mk a p cs => simp only [traverseControls, Gui.props, GuiProps.SetVisibleRect]

theorem traverseChildren_visibleRect (R : RectOps) (cs : List Gui) (clip : RectF) :
    ∀ child ∈ traverseChildren R cs clip, child.props.visibleRect = clip := by
  induction cs with
  | nil => intro child h; simp only [traverseChildren, List.not_mem_nil] at h
  | cons c rest ih =>
    intro child h
    simp only [traverseChildren, List.mem_cons] at h
    rcases h with rfl | h
    · exact traverseControls_visibleRect R c clip
    · exact ih child h

mutual
theorem traverseControls_child_clip (R : RectOps) :
    ∀ (g : Gui) (clip : RectF), ∀ parent ∈ preorder (traverseControls R g clip),
      ∀ child ∈ parent.GetChildren,
        child.props.visibleRect = R.Intersect parent.props.visibleRect
          (if parent.props.IsChildrenClipEnabled then parent.props.GetPaddingRect
           else infiniteRect)
  | .mk a p cs, clip => by
    intro parent hp child hc
    simp only [traverseControls, preorder, List.mem_cons] at hp
    rcases hp with rfl | hp
    · simp only [Gui.GetChildren] at hc
      exact traverseChildren_visibleRect R cs _ child hc
    · exact traverseChildren_child_clip R cs _ parent hp child hc
theorem traverseChildren_child_clip (R : RectOps) :
    ∀ (cs : List Gui) (clip : RectF), ∀ parent ∈ preorderList (traverseChildren R cs clip),
      ∀ child ∈ parent.GetChildren,
        child.props.visibleRect = R.Intersect parent.props.visibleRect
          (if parent.props.IsChildrenClipEnabled then parent.props.GetPaddingRect
           else infiniteRect)
  | [], _ => by
    intro parent hp
    simp only [traverseChildren, preorderList, List.not_mem_nil] at hp
  | c :: rest, clip => by
    intro parent hp child hc
    simp only [traverseChildren, preorderList, List.mem_append] at hp
    rcases hp with hp | hp
    · exact traverseControls_child_clip R c clip parent hp child hc
    · exact traverseChildren_child_clip R rest clip parent hp child hc
end

mutual
theorem traverseControls_keeps (R : RectOps) :
    ∀ (g : Gui) (clip : RectF),
      (preorder (traverseControls R g clip)).map
          (fun c => (c.addr, c.props.paddingRect, c.props.childrenClip)) =
        (preorder g).map (fun c => (c.addr, c.props.paddingRect, c.props.childrenClip))
  | .mk a p cs, clip => by
    rw [traverseControls, preorder, preorder, List.map_cons, List.map_cons,
      traverseChildren_keeps R cs _]
    rfl
theorem traverseChildren_keeps (R : RectOps) :
    ∀ (cs : List Gui) (clip : RectF),
      (preorderList (traverseChildren R cs clip)).map
          (fun c => (c.addr, c.props.paddingRect, c.props.childrenClip)) =
        (preorderList cs).map (fun c => (c.addr, c.props.paddingRect, c.props.childrenClip))
  | [], _ => by simp only [traverseChildren, preorderList, List.map_nil]
  | c :: rest, clip => by
    simp only [traverseChildren, preorderList, List.map_append]
    rw [traverseControls_keeps R c clip, traverseChildren_keeps R rest clip]
end

theorem preorderList_eq_flatten (l : List Gui) : preorderList l = (l.map preorder).flatten := by
  induction l with
  | nil => simp only [List.map_nil, preorderList, List.flatten_nil]
  | cons a l ih => simp only [List.map_cons, preorderList, List.flatten_cons, ih]

theorem mem_GetLayers_clipPass (R : RectOps) (e : GuiEngine) (layer : Gui)
    (h : layer ∈ (clipPass R e).GetLayers) :
    ∃ g ∈ e.GetLayers, layer = traverseControls R g infiniteRect := by
  simp only [GuiEngine.GetLayers, clipPass, List.mem_append, List.mem_map,
    List.mem_singleton] at h ⊢
  rcases h with ⟨g, hg, rfl⟩ | rfl
  · exact ⟨g, Or.inl hg, rfl⟩
  · exact ⟨_, Or.inr rfl, rfl⟩

/-- C5, amended. After the clip pass of `Update` (window focused) the visible
rectangle of a control is the clip rectangle its parent propagates to it: for
every layer, the overlay layer included, the rectangle
`RectF(-FLT_MAX * 0.5, FLT_MAX, -FLT_MAX * 0.5, FLT_MAX)`; for every child of a
control reachable from a layer, the visible rectangle of that control intersected
with its padding rectangle if it clips its children, and with the same infinite
rectangle if not. The padding rectangle of the control itself takes no part, and
the pass changes no address, padding rectangle or clip flag. -/
theorem Update_visibleRect_is_propagated_clip (R : RectOps) (e : GuiEngine) (w : Window)
    (hf : w.IsFocused = true) :
    (∀ layer ∈ (e.Update R w).GetLayers,
      layer.props.visibleRect = infiniteRect ∧
      ∀ parent ∈ preorder layer, ∀ child ∈ parent.GetChildren,
        child.props.visibleRect = R.Intersect parent.props.visibleRect
          (if parent.props.IsChildrenClipEnabled then parent.props.GetPaddingRect
           else infiniteRect)) ∧
    (e.Update R w).allControls.map (fun c => (c.addr, c.props.paddingRect, c.props.childrenClip)) =
      e.allControls.map (fun c => (c.addr, c.props.paddingRect, c.props.childrenClip)) := by
  obtain ⟨h1, h2, _⟩ := Update_clipPass R e w hf
  have hl : (e.Update R w).GetLayers = (clipPass R e).GetLayers := by
    simp only [GuiEngine.GetLayers, h1, h2]
  refine ⟨?_, ?_⟩
  · intro layer hlayer
    rw [hl] at hlayer
    obtain ⟨g, _, rfl⟩ := mem_GetLayers_clipPass R e layer hlayer
    exact ⟨traverseControls_visibleRect R g _, traverseControls_child_clip R g _⟩
  · have ha : (e.Update R w).allControls = (clipPass R e).allControls := by
      simp only [GuiEngine.allControls, h1, h2]
    rw [ha]
    simp only [GuiEngine.allControls, clipPass, preorderList_eq_flatten, List.map_append,
      List.map_map, List.map_cons, List.map_nil, List.flatten_append, List.map_flatten,
      List.flatten_cons, List.flatten_nil, List.append_nil, Function.comp_def,
      traverseControls_keeps]

/-- On the example engine the window is focused, and after `Update` the overlay
layer has the infinite rectangle as visible rectangle. -/
theorem Update_visibleRect_is_propagated_clip_witness :
    (⟨true, ⟨45, 45⟩⟩ : Window).IsFocused = true ∧
    (demoEngine.Update demoRectOps ⟨true, ⟨45, 45⟩⟩).postProcessLayer.props.visibleRect =
      infiniteRect :=
  ⟨rfl, ((Update_visibleRect_is_propagated_clip demoRectOps demoEngine ⟨true, ⟨45, 45⟩⟩ rfl).1
      (demoEngine.Update demoRectOps ⟨true, ⟨45, 45⟩⟩).postProcessLayer
      (by simp [GuiEngine.GetLayers])).1⟩

/-- C5 as stated fails. On the example engine, after `Update`, child 3 of the layer
has the visible rectangle [0, 100] x [0, 100] that the layer propagates. The point
(10, 10) lies in it, but not in the padding rectangle [40, 90] x [40, 90] of the
child, so not in the intersection of that padding rectangle with the propagated
clip rectangle. -/
theorem visibleRect_exceeds_paddingRect :
    ((demoEngine.Update demoRectOps ⟨true, ⟨45, 45⟩⟩).allControls.any (fun parent =>
      parent.GetChildren.any (fun child =>
        child.addr == 3 &&
        demoRectOps.IsPointInside child.props.visibleRect ⟨10, 10⟩ &&
        !demoRectOps.IsPointInside
            (demoRectOps.Intersect child.props.GetPaddingRect
              (demoRectOps.Intersect parent.props.visibleRect
                (if parent.props.IsChildrenClipEnabled then parent.props.GetPaddingRect
                 else infiniteRect))) ⟨10, 10⟩))) = true := by
  decide!

end inl.gui.Frame

/-! ## GuiEngine, mouse handlers: theorems -/

namespace inl.gui.Input.GuiEngine

theorem TraverseTowardParents_preserves {α : Type} (proj : GuiEngine → α)
    (fn : GuiEngine → Nat → GuiEngine) (h : ∀ e c, proj (fn e c) = proj e) :
    ∀ (fuel : Nat) (e : GuiEngine) (c : Nat), proj (TraverseTowardParents fn fuel e c) = proj e := by
  intro fuel
  induction fuel with
  | zero => intro e c; rfl
  | succ n ih =>
    intro e c
    simp only [TraverseTowardParents]
    split
    · rw [ih, h]
    · rw [h]

theorem RemoveFromParent_proj (e : GuiEngine) (c : Nat) :
    (e.RemoveFromParent c).fired = e.fired ∧
    (e.RemoveFromParent c).hoveredGui = e.hoveredGui ∧
    (e.RemoveFromParent c).mousePosWhenPress = e.mousePosWhenPress ∧
    (e.RemoveFromParent c).layers = e.layers ∧
    (e.RemoveFromParent c).postProcessLayer = e.postProcessLayer ∧
    (e.RemoveFromParent c).activeContextMenu = e.activeContextMenu := by
  unfold RemoveFromParent
  split <;> exact ⟨rfl, rfl, rfl, rfl, rfl, rfl⟩

theorem Add_proj (e : GuiEngine) (p c : Nat) :
    (e.Add p c).fired = e.fired ∧
    (e.Add p c).hoveredGui = e.hoveredGui ∧
    (e.Add p c).mousePosWhenPress = e.mousePosWhenPress ∧
    (e.Add p c).layers = e.layers ∧
    (e.Add p c).postProcessLayer = e.postProcessLayer ∧
    (e.Add p c).activeContextMenu = e.activeContextMenu := by
  obtain ⟨h1, h2, h3, h4, h5, h6⟩ := RemoveFromParent_proj e c
  simp only [Add, store]
  exact ⟨h1, h2, h3, h4, h5, h6⟩

theorem engineClicks_fire (e : GuiEngine) (n : Notification) :
    engineClicks (e.fire n) = engineClicks e +
      (match n with
       | .engine .MouseClicked _ => 1
       | _ => 0) := by
  simp only [engineClicks, fire, List.filter_append, List.length_append]
  congr 1
  split <;> simp_all

theorem notifyIfInside_engineClicks (R : RectOps) (s : Signal) (d : CursorEvent) (pc : Vector2f)
    (e : GuiEngine) (c : Nat) :
    engineClicks (notifyIfInside R s d pc e c) = engineClicks e ∧
    (notifyIfInside R s d pc e c).hoveredGui = e.hoveredGui ∧
    (notifyIfInside R s d pc e c).mousePosWhenPress = e.mousePosWhenPress := by
  unfold notifyIfInside
  split
  · simp only [engineClicks_fire]
    exact ⟨rfl, rfl, rfl⟩
  · exact ⟨rfl, rfl, rfl⟩

theorem attachContextMenu_fired (ev : WindowEvent) (e : GuiEngine) (m : Nat) :
    (attachContextMenu ev e m).fired = e.fired ∧
    (attachContextMenu ev e m).hoveredGui = e.hoveredGui ∧
    (attachContextMenu ev e m).mousePosWhenPress = e.mousePosWhenPress := by
  simp only [attachContextMenu, SetRect, store]
  obtain ⟨h1, h2, h3, _⟩ := Add_proj { e with activeContextMenu := some m } e.postProcessLayer m
  exact ⟨h1, h2, h3⟩

theorem clickFn_engineClicks (R : RectOps) (ev : WindowEvent) (d : CursorEvent) (pc : Vector2f)
    (e : GuiEngine) (c : Nat) :
    engineClicks (clickFn R ev d pc e c) = engineClicks e ∧
    (clickFn R ev d pc e c).hoveredGui = e.hoveredGui ∧
    (clickFn R ev d pc e c).mousePosWhenPress = e.mousePosWhenPress := by
  have h2 : engineClicks ((e.fire (.perInstance c .MouseClicked d)).fire
      (.clonable c .MouseClicked c d)) = engineClicks e := by
    simp only [engineClicks_fire, Nat.add_zero]
  unfold clickFn
  dsimp only
  split
  · split
    · split
      · split
        · obtain ⟨a1, a2, a3⟩ := attachContextMenu_fired ev
            ((e.fire (.perInstance c .MouseClicked d)).fire (.clonable c .MouseClicked c d)) ‹_›
          refine ⟨?_, a2, a3⟩
          rw [← h2]
          simp only [engineClicks, a1]
        · exact ⟨h2, rfl, rfl⟩
      · exact ⟨h2, rfl, rfl⟩
    · exact ⟨h2, rfl, rfl⟩
  · exact ⟨rfl, rfl, rfl⟩

theorem detachActive_proj (e : GuiEngine) :
    (detachActive e).fired = e.fired ∧
    (detachActive e).hoveredGui = e.hoveredGui ∧
    (detachActive e).mousePosWhenPress = e.mousePosWhenPress ∧
    (detachActive e).layers = e.layers ∧
    (detachActive e).postProcessLayer = e.postProcessLayer ∧
    (detachActive e).activeContextMenu = e.activeContextMenu := by
  unfold detachActive
  split
  · exact RemoveFromParent_proj e _
  · exact ⟨rfl, rfl, rfl, rfl, rfl, rfl⟩

theorem detachActive_engineClicks (e : GuiEngine) :
    engineClicks (detachActive e) = engineClicks e := by
  simp only [engineClicks, (detachActive_proj e).1]

theorem traverse_notify_facts (R : RectOps) (s : Signal) (d : CursorEvent) (pc : Vector2f)
    (fuel : Nat) (e : GuiEngine) (c : Nat) :
    engineClicks (TraverseTowardParents (notifyIfInside R s d pc) fuel e c) = engineClicks e ∧
    (TraverseTowardParents (notifyIfInside R s d pc) fuel e c).hoveredGui = e.hoveredGui ∧
    (TraverseTowardParents (notifyIfInside R s d pc) fuel e c).mousePosWhenPress =
      e.mousePosWhenPress := by
  have := TraverseTowardParents_preserves
    (fun e => (engineClicks e, e.hoveredGui, e.mousePosWhenPress)) (notifyIfInside R s d pc)
    (fun e c => by
      obtain ⟨h1, h2, h3⟩ := notifyIfInside_engineClicks R s d pc e c
      simp only [h1, h2, h3]) fuel e c
  simp only [Prod.mk.injEq] at this
  exact this

theorem traverse_click_facts (R : RectOps) (ev : WindowEvent) (d : CursorEvent) (pc : Vector2f)
    (fuel : Nat) (e : GuiEngine) (c : Nat) :
    engineClicks (TraverseTowardParents (clickFn R ev d pc) fuel e c) = engineClicks e := by
  exact TraverseTowardParents_preserves engineClicks (clickFn R ev d pc)
    (fun e c => (clickFn_engineClicks R ev d pc e c).1) fuel e c

theorem onMousePressed_facts (R : RectOps) (fuel : Nat) (e : GuiEngine) (ev : WindowEvent) :
    engineClicks (onMousePressed R fuel e ev) = engineClicks e ∧
    (onMousePressed R fuel e ev).hoveredGui = e.hoveredGui ∧
    (onMousePressed R fuel e ev).mousePosWhenPress = ev.clientMousePos := by
  cases hh : e.hoveredGui with
  | none =>
    simp only [onMousePressed, fire, hh]
    refine ⟨?_, ?_, ?_⟩
    · rw [detachActive_engineClicks]; simp [engineClicks]
    · rw [(detachActive_proj _).2.1]
    · rw [(detachActive_proj _).2.2.1]
  | some h =>
    simp only [onMousePressed, fire, hh]
    refine ⟨?_, ?_, ?_⟩
    · rw [detachActive_engineClicks, (traverse_notify_facts _ _ _ _ _ _ _).1]
      simp [engineClicks]
    · rw [(detachActive_proj _).2.1, (traverse_notify_facts _ _ _ _ _ _ _).2.1]
    · rw [(detachActive_proj _).2.2.1, (traverse_notify_facts _ _ _ _ _ _ _).2.2]

theorem fire_hoveredGui (e : GuiEngine) (n : Notification) :
    (e.fire n).hoveredGui = e.hoveredGui := rfl

theorem fire_mousePosWhenPress (e : GuiEngine) (n : Notification) :
    (e.fire n).mousePosWhenPress = e.mousePosWhenPress := rfl

theorem onMouseReleased_engineClicks (R : RectOps) (fuel : Nat) (e : GuiEngine) (ev : WindowEvent)
    (hc : e.mousePosWhenPress = ev.clientMousePos) :
    engineClicks (onMouseReleased R fuel e ev) =
      engineClicks e + (if e.hoveredGui.isSome then 2 else 1) := by
  have hd : ∀ s : GuiEngine, (detachActive s).hoveredGui = s.hoveredGui :=
    fun s => (detachActive_proj s).2.1
  cases hh : e.hoveredGui with
  | none =>
    simp only [onMouseReleased, fire_mousePosWhenPress, fire_hoveredGui, hc, decide_True,
      if_true, hd, hh]
    rw [detachActive_engineClicks, engineClicks_fire, engineClicks_fire]
    simp
  | some h =>
    simp only [onMouseReleased, fire_mousePosWhenPress, fire_hoveredGui, hc, decide_True,
      if_true, hd, hh]
    rw [traverse_click_facts, engineClicks_fire, (traverse_notify_facts _ _ _ _ _ _ _).1,
      detachActive_engineClicks, engineClicks_fire, engineClicks_fire]
    simp

/-- C1, on the code. A press at `P` and a release at `P` with a control hovered
call the click handler of the engine twice (lines 69 and 91 of the release handler),
not once. -/
theorem press_release_fires_engine_click_twice (R : RectOps) (fuel₁ fuel₂ : Nat)
    (e : GuiEngine) (press release : WindowEvent) (hovered : Nat)
    (hh : e.hoveredGui = some hovered)
    (hP : release.clientMousePos = press.clientMousePos) :
    engineClicks (onMouseReleased R fuel₂ (onMousePressed R fuel₁ e press) release) =
      engineClicks e + 2 := by
  obtain ⟨h1, h2, h3⟩ := onMousePressed_facts R fuel₁ e press
  rw [onMouseReleased_engineClicks R fuel₂ _ release (h3.trans hP.symm), h1, h2, hh]
  rfl

/-- On the example engine, with the button 2 hovered, a left press and release at
(10, 10) call the click handler of the engine twice. -/
theorem press_release_fires_engine_click_twice_witness :
    demoEngine.hoveredGui = some 2 ∧
    engineClicks (onMouseReleased demoRectOps 5
      (onMousePressed demoRectOps 5 demoEngine ⟨⟨10, 10⟩, .LEFT, ⟨0, 0⟩⟩)
      ⟨⟨10, 10⟩, .LEFT, ⟨0, 0⟩⟩) = 2 :=
  ⟨rfl, press_release_fires_engine_click_twice demoRectOps 5 5 demoEngine
    ⟨⟨10, 10⟩, .LEFT, ⟨0, 0⟩⟩ ⟨⟨10, 10⟩, .LEFT, ⟨0, 0⟩⟩ 2 rfl rfl⟩

theorem notifyIfInside_guis (R : RectOps) (s : Signal) (d : CursorEvent) (pc : Vector2f)
    (e : GuiEngine) (c : Nat) :
    (notifyIfInside R s d pc e c).guis = e.guis ∧
    (notifyIfInside R s d pc e c).fired = e.fired ++
      (if R.IsPointInside (e.GetVisiblePaddingRect R c) pc then
        [.perInstance c s d, .clonable c s c d] else []) := by
  unfold notifyIfInside
  split
  · simp [fire]
  · simp

/-- Along the ancestor chain of `h`, the walk with `notifyIfInside` calls, leaf to
root, the two handlers of each control whose visible padding rectangle holds the
pixel centre, and leaves the heap as it is. -/
theorem traverse_notify_fired (R : RectOps) (s : Signal) (d : CursorEvent) (pc : Vector2f) :
    ∀ (cs : List Nat) (fuel : Nat) (e : GuiEngine) (h : Nat),
      e.isChain h cs = true → cs.length ≤ fuel →
      (TraverseTowardParents (notifyIfInside R s d pc) fuel e h).guis = e.guis ∧
      (TraverseTowardParents (notifyIfInside R s d pc) fuel e h).fired = e.fired ++
        (cs.filter (fun c => R.IsPointInside (e.GetVisiblePaddingRect R c) pc)).flatMap
          (fun c => [.perInstance c s d, .clonable c s c d]) := by
  intro cs
  induction cs with
  | nil => intro fuel e h hc; simp [isChain, chainOf] at hc
  | cons c rest ih =>
    intro fuel e h hc hf
    cases fuel with
    | zero => simp at hf
    | succ n =>
      obtain ⟨g1, g2⟩ := notifyIfInside_guis R s d pc e h
      cases rest with
      | nil =>
        simp only [isChain, chainOf, Bool.and_eq_true, decide_eq_true_eq] at hc
        obtain ⟨rfl, hp⟩ := hc
        simp only [TraverseTowardParents, g1, hp]
        rw [g2]
        by_cases hi : R.IsPointInside (e.GetVisiblePaddingRect R c) pc = true
        · simp [hi]
        · simp [hi]
      | cons p rest' =>
        simp only [isChain, chainOf, Bool.and_eq_true, decide_eq_true_eq] at hc
        obtain ⟨⟨rfl, hp⟩, hrest⟩ := hc
        simp only [TraverseTowardParents, g1, hp]
        have hc' : (notifyIfInside R s d pc e c).isChain p (p :: rest') = true := by
          simp only [isChain, g1]; exact hrest
        obtain ⟨i1, i2⟩ := ih n (notifyIfInside R s d pc e c) p hc'
          (by simpa using hf)
        refine ⟨i1.trans g1, ?_⟩
        rw [i2, g2]
        simp only [GetVisiblePaddingRect, g1]
        by_cases hi : R.IsPointInside ((e.guis c).props.GetVisiblePaddingRect R) pc = true
        · simp [List.filter_cons, hi]
        · simp [List.filter_cons, hi]

/-- C7, amended. A move event with the control `h` hovered calls the move handler
of the engine and then, along the ancestor chain of `h` from `h` up to the control
without parent, for each control whose visible padding rectangle holds the mouse
position plus (0.5, 0.5), the handler of the instance and right after it the
clonable handler with that control as argument; the other controls of the chain
get no call. With no control hovered, only the handler of the engine is called. -/
theorem onMouseMoved_dispatch (R : RectOps) (e : GuiEngine) (event : WindowEvent) :
    (∀ (h : Nat) (cs : List Nat) (fuel : Nat), e.hoveredGui = some h → e.isChain h cs = true →
      cs.length ≤ fuel →
      (onMouseMoved R fuel e event).fired =
        e.fired ++ [.engine .MouseMoved ⟨event.clientMousePos, event.mouseDelta⟩] ++
          (cs.filter (fun c => R.IsPointInside (e.GetVisiblePaddingRect R c)
              (event.clientMousePos + ⟨0.5, 0.5⟩))).flatMap
            (fun c => [.perInstance c .MouseMoved ⟨event.clientMousePos, event.mouseDelta⟩,
                       .clonable c .MouseMoved c ⟨event.clientMousePos, event.mouseDelta⟩])) ∧
    (∀ fuel : Nat, e.hoveredGui = none →
      (onMouseMoved R fuel e event).fired =
        e.fired ++ [.engine .MouseMoved ⟨event.clientMousePos, event.mouseDelta⟩]) := by
  refine ⟨?_, ?_⟩
  · intro h cs fuel hh hc hf
    simp only [onMouseMoved, fire_hoveredGui, hh]
    exact (traverse_notify_fired R .MouseMoved _ _ cs fuel
      (e.fire (.engine .MouseMoved ⟨event.clientMousePos, event.mouseDelta⟩)) h hc hf).2
  · intro fuel hh
    simp only [onMouseMoved, fire_hoveredGui, hh]
    rfl

/-- On the example engine the button 2 is hovered and its chain is 2, 1. A move to
(10, 10), inside both, calls the handlers of 2 and then those of 1. -/
theorem onMouseMoved_dispatch_witness :
    (onMouseMoved demoRectOps 2 demoEngine ⟨⟨10, 10⟩, .LEFT, ⟨1, 1⟩⟩).fired =
      [.engine .MouseMoved ⟨⟨10, 10⟩, ⟨1, 1⟩⟩,
       .perInstance 2 .MouseMoved ⟨⟨10, 10⟩, ⟨1, 1⟩⟩,
       .clonable 2 .MouseMoved 2 ⟨⟨10, 10⟩, ⟨1, 1⟩⟩,
       .perInstance 1 .MouseMoved ⟨⟨10, 10⟩, ⟨1, 1⟩⟩,
       .clonable 1 .MouseMoved 1 ⟨⟨10, 10⟩, ⟨1, 1⟩⟩] :=
  ((onMouseMoved_dispatch demoRectOps demoEngine ⟨⟨10, 10⟩, .LEFT, ⟨1, 1⟩⟩).1 2 [2, 1] 2
    rfl (by decide) (by decide)).trans (by decide!)

/-- C7 as stated fails. On the example engine the button 2 is hovered, with the
chain 2, 1. A move to (70, 70), outside the padding rectangle [0, 50] x [0, 50] of
the button, calls no handler of the button: only the layer 1 gets the move. -/
theorem onMouseMoved_skips_hovered_control :
    demoEngine.hoveredGui = some 2 ∧ demoEngine.isChain 2 [2, 1] = true ∧
    (onMouseMoved demoRectOps 2 demoEngine ⟨⟨70, 70⟩, .LEFT, ⟨1, 1⟩⟩).fired =
      [.engine .MouseMoved ⟨⟨70, 70⟩, ⟨1, 1⟩⟩,
       .perInstance 1 .MouseMoved ⟨⟨70, 70⟩, ⟨1, 1⟩⟩,
       .clonable 1 .MouseMoved 1 ⟨⟨70, 70⟩, ⟨1, 1⟩⟩] := by
  decide!

theorem store_self (e : GuiEngine) (a : Nat) (g : Gui) : (e.store a g).guis a = g := by
  simp [store]

theorem store_other (e : GuiEngine) (a : Nat) (g : Gui) (x : Nat) (h : x ≠ a) :
    (e.store a g).guis x = e.guis x := by
  simp [store, h]

/-- Storing an object with the parent and the attributes of the one it replaces
keeps parent and attributes at every address. -/
theorem store_same (e : GuiEngine) (a : Nat) (g : Gui)
    (hp : g.parent = (e.guis a).parent) (hq : g.props = (e.guis a).props) (x : Nat) :
    ((e.store a g).guis x).parent = (e.guis x).parent ∧
    ((e.store a g).guis x).props = (e.guis x).props := by
  by_cases h : x = a
  · subst h; rw [store_self]; exact ⟨hp, hq⟩
  · rw [store_other e a g x h]; exact ⟨rfl, rfl⟩

theorem RemoveFromParent_guis (e : GuiEngine) (c x : Nat) :
    ((e.RemoveFromParent c).guis x).props = (e.guis x).props ∧
    (x ≠ c → ((e.RemoveFromParent c).guis x).parent = (e.guis x).parent) ∧
    ((e.RemoveFromParent c).guis c).parent = none := by
  unfold RemoveFromParent
  split
  · rename_i h
    exact ⟨rfl, fun _ => rfl, h⟩
  · rename_i p h
    dsimp only
    have h1 := store_same e p
      { e.guis p with children := (e.guis p).children.erase c } rfl rfl
    refine ⟨?_, ?_, ?_⟩
    · by_cases hx : x = c
      · subst hx; rw [store_self]; exact (h1 x).2
      · rw [store_other _ _ _ _ hx]; exact (h1 x).2
    · intro hx
      rw [store_other _ _ _ _ hx]; exact (h1 x).1
    · rw [store_self]

theorem Add_spec (e : GuiEngine) (p c : Nat) :
    ((e.Add p c).guis c).parent = some p ∧
    c ∈ ((e.Add p c).guis p).children ∧
    ∀ x, x ≠ c →
      ((e.Add p c).guis x).parent = (e.guis x).parent ∧
      ((e.Add p c).guis x).props = (e.guis x).props := by
  simp only [Add]
  generalize hr : e.RemoveFromParent c = r
  refine ⟨?_, ?_, ?_⟩
  · rw [store_self]
  · by_cases hm : p = c
    · subst hm
      rw [store_self, store_self]
      simp
    · rw [store_other _ _ _ _ hm, store_self]
      simp
  · intro x hx
    obtain ⟨r1, r2, _⟩ := RemoveFromParent_guis e c x
    rw [hr] at r1 r2
    rw [store_other _ _ _ _ hx]
    have h2 := store_same r p { r.guis p with children := (r.guis p).children ++ [c] } rfl rfl x
    exact ⟨h2.1.trans (r2 hx), h2.2.trans r1⟩

theorem SetRect_spec (e : GuiEngine) (c : Nat) (rect : RectF) :
    (e.SetRect c rect).GetRect c = rect ∧
    (e.SetRect c rect).layers = e.layers ∧
    (e.SetRect c rect).postProcessLayer = e.postProcessLayer ∧
    (e.SetRect c rect).activeContextMenu = e.activeContextMenu ∧
    (∀ x, ((e.SetRect c rect).guis x).parent = (e.guis x).parent ∧
      ((e.SetRect c rect).guis x).children = (e.guis x).children) ∧
    ∀ x, x ≠ c → ((e.SetRect c rect).guis x).props = (e.guis x).props := by
  refine ⟨?_, rfl, rfl, rfl, ?_, ?_⟩
  · simp only [SetRect, GetRect]
    rw [store_self]
    rfl
  · intro x
    simp only [SetRect]
    by_cases hx : x = c
    · subst hx; rw [store_self]; exact ⟨rfl, rfl⟩
    · rw [store_other _ _ _ _ hx]; exact ⟨rfl, rfl⟩
  · intro x hx
    simp only [SetRect]
    rw [store_other _ _ _ _ hx]

theorem attachContextMenu_spec (ev : WindowEvent) (s : GuiEngine) (m : Nat) :
    showsMenuAt (attachContextMenu ev s m) s.postProcessLayer ev.clientMousePos m ∧
    (attachContextMenu ev s m).layers = s.layers ∧
    (attachContextMenu ev s m).postProcessLayer = s.postProcessLayer ∧
    ∀ x, x ≠ m →
      ((attachContextMenu ev s m).guis x).parent = (s.guis x).parent ∧
      ((attachContextMenu ev s m).guis x).props = (s.guis x).props := by
  have p4 : (GuiEngine.Add { s with activeContextMenu := some m } s.postProcessLayer m).layers
      = s.layers := (Add_proj _ _ _).2.2.2.1
  have p5 : (GuiEngine.Add { s with activeContextMenu := some m } s.postProcessLayer
      m).postProcessLayer = s.postProcessLayer := (Add_proj _ _ _).2.2.2.2.1
  have p6 : (GuiEngine.Add { s with activeContextMenu := some m } s.postProcessLayer
      m).activeContextMenu = some m := (Add_proj _ _ _).2.2.2.2.2
  have a1 : ((GuiEngine.Add { s with activeContextMenu := some m } s.postProcessLayer m).guis
      m).parent = some s.postProcessLayer := (Add_spec _ _ _).1
  have a2 : m ∈ ((GuiEngine.Add { s with activeContextMenu := some m } s.postProcessLayer m).guis
      s.postProcessLayer).children := (Add_spec _ _ _).2.1
  have a3 : ∀ x, x ≠ m →
      ((GuiEngine.Add { s with activeContextMenu := some m } s.postProcessLayer m).guis x).parent
        = (s.guis x).parent ∧
      ((GuiEngine.Add { s with activeContextMenu := some m } s.postProcessLayer m).guis x).props
        = (s.guis x).props := (Add_spec _ _ _).2.2
  simp only [attachContextMenu]
  generalize GuiEngine.Add { s with activeContextMenu := some m } s.postProcessLayer m = r at *
  obtain ⟨s1, s2, s3, s4, s5, s6⟩ := SetRect_spec r m
    { { (r.GetRect m) with left := ev.clientMousePos.x } with top := ev.clientMousePos.y }
  refine ⟨⟨?_, ?_, ?_, ?_, ?_⟩, ?_, ?_, ?_⟩
  · rw [s4, p6]
  · rw [(s5 m).1, a1]
  · rw [(s5 _).2]; exact a2
  · rw [s1]
  · rw [s1]
  · rw [s2, p4]
  · rw [s3, p5]
  · intro x hx
    exact ⟨(s5 x).1.trans (a3 x hx).1, (s6 x hx).trans (a3 x hx).2⟩

theorem fire_guis (e : GuiEngine) (n : Notification) : (e.fire n).guis = e.guis := rfl

theorem menusAlong_single (R : RectOps) (e : GuiEngine) (pc : Vector2f) (c : Nat) :
    menusAlong R e pc [c] =
      if R.IsPointInside (e.GetVisiblePaddingRect R c) pc then
        (match (e.guis c).props.GetContextMenu with
         | some m => [m]
         | none => [])
      else [] := by
  by_cases h : R.IsPointInside (e.GetVisiblePaddingRect R c) pc = true
  · cases hc : (e.guis c).props.GetContextMenu <;>
      simp [menusAlong, List.filterMap_cons, h, hc]
  · simp [menusAlong, List.filterMap_cons, h]

theorem menusAlong_cons (R : RectOps) (e : GuiEngine) (pc : Vector2f) (c : Nat) (l : List Nat) :
    menusAlong R e pc (c :: l) = menusAlong R e pc [c] ++ menusAlong R e pc l := by
  simp only [menusAlong, List.filterMap_cons, List.filterMap_nil]
  split <;> simp

/-- One step of the click walk of a right button click, at a control of the chain. -/
theorem clickFn_step (R : RectOps) (ev : WindowEvent) (d : CursorEvent) (pc : Vector2f)
    (e s : GuiEngine) (cs : List Nat) (c : Nat)
    (hbtn : ev.mouseBtn = eMouseBtn.RIGHT) (hlay : e.layers ≠ [])
    (hF : agreesOn e s cs) (hc : c ∈ cs)
    (hm : ∀ m ∈ menusAlong R e pc [c], m ∉ cs) :
    agreesOn e (clickFn R ev d pc s c) cs ∧
    (menusAlong R e pc [c] = [] →
      (clickFn R ev d pc s c).guis = s.guis ∧
      (clickFn R ev d pc s c).activeContextMenu = s.activeContextMenu) ∧
    (∀ m, menusAlong R e pc [c] = [m] →
      showsMenuAt (clickFn R ev d pc s c) e.postProcessLayer ev.clientMousePos m) ∧
    (∀ a, a ∉ menusAlong R e pc [c] →
      ((clickFn R ev d pc s c).guis a).parent = (s.guis a).parent) := by
  obtain ⟨f1, f2, f3⟩ := hF
  have hprops : (s.guis c).props = (e.guis c).props := (f3 c hc).2
  have hins : s.GetVisiblePaddingRect R c = e.GetVisiblePaddingRect R c := by
    simp only [GetVisiblePaddingRect, hprops]
  rw [menusAlong_single] at hm ⊢
  unfold clickFn
  dsimp only
  simp only [fire_guis]
  rw [hins, hprops, if_pos hbtn]
  by_cases hi : R.IsPointInside (e.GetVisiblePaddingRect R c) pc = true
  · rw [if_pos hi] at hm ⊢
    rw [if_pos hi]
    cases hctx : (e.guis c).props.GetContextMenu with
    | none =>
      dsimp only
      have hg : ((s.fire (.perInstance c .MouseClicked d)).fire
          (.clonable c .MouseClicked c d)).guis = s.guis := rfl
      exact ⟨⟨f1, f2, f3⟩, fun _ => ⟨rfl, rfl⟩, fun m h => by simp at h, fun a _ => rfl⟩
    | some m =>
      rw [hctx] at hm
      dsimp only at hm ⊢
      have hl : ((s.fire (.perInstance c .MouseClicked d)).fire
          (.clonable c .MouseClicked c d)).layers.length > 0 := by
        show s.layers.length > 0
        rw [f1]
        exact List.length_pos.2 hlay
      rw [if_pos hl]
      obtain ⟨b1, b2, b3, b4⟩ := attachContextMenu_spec ev
        ((s.fire (.perInstance c .MouseClicked d)).fire (.clonable c .MouseClicked c d)) m
      have hmcs : m ∉ cs := hm m (by simp)
      refine ⟨⟨b2.trans f1, b3.trans f2, ?_⟩, fun h => by simp at h, ?_, ?_⟩
      · intro c' hc'
        have hne : c' ≠ m := fun h => hmcs (h ▸ hc')
        exact ⟨(b4 c' hne).1.trans (f3 c' hc').1, (b4 c' hne).2.trans (f3 c' hc').2⟩
      · intro m' hm'
        simp only [List.cons.injEq, and_true] at hm'
        subst hm'
        have : ((s.fire (.perInstance c .MouseClicked d)).fire
          (.clonable c .MouseClicked c d)).postProcessLayer = e.postProcessLayer := f2
        rw [← this]
        exact b1
      · intro a ha
        have hne : a ≠ m := fun h => ha (by simp [h])
        exact (b4 a hne).1
  · rw [if_neg hi]
    exact ⟨⟨f1, f2, f3⟩, fun _ => ⟨rfl, rfl⟩, fun m h => by simp [hi] at h, fun a _ => rfl⟩

theorem showsMenuAt_congr (s r : GuiEngine) (overlay : Nat) (pos : Vector2f) (m : Nat)
    (hg : r.guis = s.guis) (ha : r.activeContextMenu = s.activeContextMenu)
    (h : showsMenuAt s overlay pos m) : showsMenuAt r overlay pos m := by
  simp only [showsMenuAt, GetRect, hg, ha] at h ⊢
  exact h

/-- The click walk of a right button click over a part `l` of the chain `cs`, as a
loop: the last menu met is shown, the controls of the chain keep parent and
attributes, and a control that is none of the menus met keeps its parent. -/
theorem click_loop (R : RectOps) (ev : WindowEvent) (d : CursorEvent) (pc : Vector2f)
    (e : GuiEngine) (cs : List Nat)
    (hbtn : ev.mouseBtn = eMouseBtn.RIGHT) (hlay : e.layers ≠ []) :
    ∀ (l : List Nat) (s : GuiEngine), (∀ c ∈ l, c ∈ cs) → agreesOn e s cs →
      (∀ m ∈ menusAlong R e pc l, m ∉ cs) →
      agreesOn e (l.foldl (clickFn R ev d pc) s) cs ∧
      (menusAlong R e pc l = [] →
        (l.foldl (clickFn R ev d pc) s).guis = s.guis ∧
        (l.foldl (clickFn R ev d pc) s).activeContextMenu = s.activeContextMenu) ∧
      (∀ m, (menusAlong R e pc l).getLast? = some m →
        showsMenuAt (l.foldl (clickFn R ev d pc) s) e.postProcessLayer ev.clientMousePos m) ∧
      (∀ a, a ∉ menusAlong R e pc l →
        ((l.foldl (clickFn R ev d pc) s).guis a).parent = (s.guis a).parent) := by
  intro l
  induction l with
  | nil =>
    intro s _ hF _
    exact ⟨hF, fun _ => ⟨rfl, rfl⟩, fun m h => by simp [menusAlong] at h, fun a _ => rfl⟩
  | cons c rest ih =>
    intro s hl hF hm
    rw [menusAlong_cons] at hm ⊢
    have hc : c ∈ cs := hl c (List.mem_cons_self _ _)
    obtain ⟨t1, t2, t3, t4⟩ := clickFn_step R ev d pc e s cs c hbtn hlay hF hc
      (fun m h => hm m (List.mem_append_left _ h))
    obtain ⟨i1, i2, i3, i4⟩ := ih (clickFn R ev d pc s c)
      (fun c' h => hl c' (List.mem_cons_of_mem _ h)) t1
      (fun m h => hm m (List.mem_append_right _ h))
    rw [List.foldl_cons]
    refine ⟨i1, ?_, ?_, ?_⟩
    · intro h
      rw [List.append_eq_nil] at h
      exact ⟨(i2 h.2).1.trans (t2 h.1).1, (i2 h.2).2.trans (t2 h.1).2⟩
    · intro m h
      cases hB : menusAlong R e pc rest with
      | nil =>
        rw [hB, List.append_nil] at h
        obtain ⟨g1, g2⟩ := i2 hB
        refine showsMenuAt_congr _ _ _ _ _ g1 g2 (t3 m ?_)
        rw [menusAlong_single] at h ⊢
        split at h
        · rename_i hi
          rw [if_pos hi]
          cases hctx : (e.guis c).props.GetContextMenu with
          | none => rw [hctx] at h; simp at h
          | some m' =>
            rw [hctx] at h
            simp only [List.getLast?_singleton, Option.some.injEq] at h
            rw [h]
        · simp at h
      | cons b B =>
        apply i3
        rw [hB] at h ⊢
        rw [List.getLast?_append] at h
        cases hl' : (b :: B).getLast? with
        | none => simp at hl'
        | some x => rw [hl'] at h; simpa using h
    · intro a ha
      rw [List.mem_append, not_or] at ha
      exact (i4 a ha.2).trans (t4 a ha.1)

/-- With the parent pointers of the chain kept, the click walk up the parents is
the loop over the chain. -/
theorem traverse_click_eq_loop (R : RectOps) (ev : WindowEvent) (d : CursorEvent) (pc : Vector2f)
    (e : GuiEngine) (cs : List Nat)
    (hbtn : ev.mouseBtn = eMouseBtn.RIGHT) (hlay : e.layers ≠ []) :
    ∀ (l : List Nat) (fuel : Nat) (s : GuiEngine) (h : Nat),
      e.isChain h l = true → l.length ≤ fuel → (∀ c ∈ l, c ∈ cs) → agreesOn e s cs →
      (∀ m ∈ menusAlong R e pc l, m ∉ cs) →
      TraverseTowardParents (clickFn R ev d pc) fuel s h = l.foldl (clickFn R ev d pc) s := by
  intro l
  induction l with
  | nil => intro fuel s h hc; simp [isChain, chainOf] at hc
  | cons c rest ih =>
    intro fuel s h hc hf hl hF hm
    cases fuel with
    | zero => simp at hf
    | succ n =>
      rw [menusAlong_cons] at hm
      have hcs : c ∈ cs := hl c (List.mem_cons_self _ _)
      obtain ⟨t1, _, _, _⟩ := clickFn_step R ev d pc e s cs c hbtn hlay hF hcs
        (fun m h => hm m (List.mem_append_left _ h))
      have hpar : ((clickFn R ev d pc s c).guis c).parent = (e.guis c).parent := (t1.2.2 c hcs).1
      cases rest with
      | nil =>
        simp only [isChain, chainOf, Bool.and_eq_true, decide_eq_true_eq] at hc
        obtain ⟨rfl, hp⟩ := hc
        simp only [TraverseTowardParents, hpar, hp, List.foldl_cons, List.foldl_nil]
      | cons p rest' =>
        simp only [isChain, chainOf, Bool.and_eq_true, decide_eq_true_eq] at hc
        obtain ⟨⟨rfl, hp⟩, hrest⟩ := hc
        simp only [TraverseTowardParents, hpar, hp, List.foldl_cons]
        exact ih n (clickFn R ev d pc s c) p hrest (by simpa using hf)
          (fun c' h => hl c' (List.mem_cons_of_mem _ h)) t1
          (fun m h => hm m (List.mem_append_right _ h))

theorem RemoveFromParent_fire (e : GuiEngine) (n : Notification) (c : Nat) :
    (e.fire n).RemoveFromParent c = (e.RemoveFromParent c).fire n := by
  unfold RemoveFromParent
  simp only [fire_guis]
  cases (e.guis c).parent <;> rfl

theorem detachActive_fire (e : GuiEngine) (n : Notification) :
    detachActive (e.fire n) = (detachActive e).fire n := by
  unfold detachActive
  show (match e.activeContextMenu with
    | some menu => (e.fire n).RemoveFromParent menu
    | none => e.fire n) = _
  cases e.activeContextMenu with
  | none => rfl
  | some m => exact RemoveFromParent_fire e n m

theorem detachActive_props (e : GuiEngine) (x : Nat) :
    ((detachActive e).guis x).props = (e.guis x).props := by
  unfold detachActive
  split
  · exact (RemoveFromParent_guis e _ x).1
  · rfl

theorem menusAlong_detachActive (R : RectOps) (e : GuiEngine) (pc : Vector2f) (l : List Nat) :
    menusAlong R (detachActive e) pc l = menusAlong R e pc l := by
  simp only [menusAlong, GetVisiblePaddingRect, detachActive_props]

theorem traverse_notify_heap (R : RectOps) (s : Signal) (d : CursorEvent) (pc : Vector2f)
    (fuel : Nat) (e : GuiEngine) (c : Nat) :
    (TraverseTowardParents (notifyIfInside R s d pc) fuel e c).guis = e.guis ∧
    (TraverseTowardParents (notifyIfInside R s d pc) fuel e c).layers = e.layers ∧
    (TraverseTowardParents (notifyIfInside R s d pc) fuel e c).postProcessLayer
      = e.postProcessLayer := by
  have := TraverseTowardParents_preserves
    (fun e => (e.guis, e.layers, e.postProcessLayer)) (notifyIfInside R s d pc)
    (fun e c => by
      unfold notifyIfInside
      split <;> rfl) fuel e c
  simp only [Prod.mk.injEq] at this
  exact this

/-- C8, amended. Take a right button release at the press position, with at least
one layer registered, a control hovered, and on its ancestor chain (after the menu
active before the event has been detached) at least one control that holds the
release position plus (0.5, 0.5) in its visible padding rectangle and owns a
context menu, no such menu being itself on the chain. After the event the context
menu `m` of the last such control of the chain is the active one, it is a child of
the post process layer with that layer as parent, and `left` and `top` of its
rectangle are the release position. The menu that was active before, if it is not
among the menus shown during this event, has no parent any more. -/
theorem right_click_shows_last_context_menu (R : RectOps) (e : GuiEngine) (event : WindowEvent)
    (h : Nat) (cs : List Nat) (fuel : Nat) (m : Nat)
    (hbtn : event.mouseBtn = eMouseBtn.RIGHT)
    (hclick : e.mousePosWhenPress = event.clientMousePos)
    (hh : e.hoveredGui = some h)
    (hc : (detachActive e).isChain h cs = true) (hf : cs.length ≤ fuel)
    (hlay : e.layers ≠ [])
    (hm : ∀ m' ∈ menusAlong R e (event.clientMousePos + ⟨0.5, 0.5⟩) cs, m' ∉ cs)
    (hlast : (menusAlong R e (event.clientMousePos + ⟨0.5, 0.5⟩) cs).getLast? = some m) :
    showsMenuAt (onMouseReleased R fuel e event) e.postProcessLayer event.clientMousePos m ∧
    ∀ a, e.activeContextMenu = some a →
      a ∉ menusAlong R e (event.clientMousePos + ⟨0.5, 0.5⟩) cs →
      ((onMouseReleased R fuel e event).guis a).parent = none := by
  have hd : ∀ s : GuiEngine, (detachActive s).hoveredGui = s.hoveredGui :=
    fun s => (detachActive_proj s).2.1
  obtain ⟨_, _, _, d4, d5, _⟩ := detachActive_proj e
  have hlay0 : (detachActive e).layers ≠ [] := by rw [d4]; exact hlay
  rw [← menusAlong_detachActive] at hm hlast
  simp only [onMouseReleased, fire_mousePosWhenPress, fire_hoveredGui, hclick, decide_True,
    if_true, hd, hh, detachActive_fire]
  obtain ⟨n1, n2, n3⟩ := traverse_notify_heap R .MouseReleased ⟨event.clientMousePos, ⟨0, 0⟩⟩
    (event.clientMousePos + ⟨0.5, 0.5⟩) fuel
    (((detachActive e).fire (.engine .MouseReleased ⟨event.clientMousePos, ⟨0, 0⟩⟩)).fire
      (.engine .MouseClicked ⟨event.clientMousePos, ⟨0, 0⟩⟩)) h
  generalize TraverseTowardParents
    (notifyIfInside R .MouseReleased ⟨event.clientMousePos, ⟨0, 0⟩⟩
      (event.clientMousePos + ⟨0.5, 0.5⟩)) fuel
    (((detachActive e).fire (.engine .MouseReleased ⟨event.clientMousePos, ⟨0, 0⟩⟩)).fire
      (.engine .MouseClicked ⟨event.clientMousePos, ⟨0, 0⟩⟩)) h = s2 at n1 n2 n3 ⊢
  have hF : agreesOn (detachActive e)
      (s2.fire (.engine .MouseClicked ⟨event.clientMousePos, ⟨0, 0⟩⟩)) cs := by
    refine ⟨n2, n3, fun c _ => ?_⟩
    rw [fire_guis, n1]
    exact ⟨rfl, rfl⟩
  rw [traverse_click_eq_loop R event _ _ (detachActive e) cs hbtn hlay0 cs fuel _ h hc hf
    (fun c hc => hc) hF hm]
  obtain ⟨_, _, l3, l4⟩ := click_loop R event ⟨event.clientMousePos, ⟨0, 0⟩⟩
    (event.clientMousePos + ⟨0.5, 0.5⟩) (detachActive e) cs hbtn hlay0 cs
    (s2.fire (.engine .MouseClicked ⟨event.clientMousePos, ⟨0, 0⟩⟩)) (fun c hc => hc) hF hm
  refine ⟨?_, ?_⟩
  · rw [← d5]
    exact l3 m hlast
  · intro a ha hna
    rw [← menusAlong_detachActive] at hna
    rw [l4 a hna, fire_guis, n1]
    show ((detachActive e).guis a).parent = none
    unfold detachActive
    rw [ha]
    exact (RemoveFromParent_guis e a a).2.2

/-- On the example engine, whose press position is (0, 0), a right button release
at (0, 0), inside the hovered button 2 that owns the menu 4, shows the menu 4 at
(0, 0). -/
theorem right_click_shows_last_context_menu_witness :
    showsMenuAt (onMouseReleased demoRectOps 2 demoEngine ⟨⟨0, 0⟩, .RIGHT, ⟨0, 0⟩⟩) 0 ⟨0, 0⟩ 4 :=
  (right_click_shows_last_context_menu demoRectOps demoEngine
    ⟨⟨0, 0⟩, .RIGHT, ⟨0, 0⟩⟩ 2 [2, 1] 2 4 rfl rfl rfl (by decide!)
    (by decide) (by decide) (by decide!) (by decide!)).1

/-- C8 as stated fails. (1) On the example engine the hovered button 2 owns the menu
4; a right button click at (70, 70), outside the padding rectangle of the button,
shows no menu. (2) With no layer registered, a right button click at (10, 10),
inside the button, shows no menu. (3) When the layer 1 owns a menu 5 as well, a
right button click at (10, 10) attaches both 4 and 5 to the post process layer; 5
is the active one and 4 stays attached. -/
theorem right_click_context_menu_guards :
    ((onMouseReleased demoRectOps 2
        (onMousePressed demoRectOps 2 demoEngine ⟨⟨70, 70⟩, .RIGHT, ⟨0, 0⟩⟩)
        ⟨⟨70, 70⟩, .RIGHT, ⟨0, 0⟩⟩).activeContextMenu = none ∧
     ((onMouseReleased demoRectOps 2
        (onMousePressed demoRectOps 2 demoEngine ⟨⟨70, 70⟩, .RIGHT, ⟨0, 0⟩⟩)
        ⟨⟨70, 70⟩, .RIGHT, ⟨0, 0⟩⟩).guis 0).children = []) ∧
    ((onMouseReleased demoRectOps 2
        (onMousePressed demoRectOps 2 { demoEngine with layers := [] } ⟨⟨10, 10⟩, .RIGHT, ⟨0, 0⟩⟩)
        ⟨⟨10, 10⟩, .RIGHT, ⟨0, 0⟩⟩).activeContextMenu = none ∧
     ((onMouseReleased demoRectOps 2
        (onMousePressed demoRectOps 2 { demoEngine with layers := [] } ⟨⟨10, 10⟩, .RIGHT, ⟨0, 0⟩⟩)
        ⟨⟨10, 10⟩, .RIGHT, ⟨0, 0⟩⟩).guis 0).children = []) ∧
    ((onMouseReleased demoRectOps 2
        (onMousePressed demoRectOps 2 demoEngineTwoMenus ⟨⟨10, 10⟩, .RIGHT, ⟨0, 0⟩⟩)
        ⟨⟨10, 10⟩, .RIGHT, ⟨0, 0⟩⟩).activeContextMenu = some 5 ∧
     ((onMouseReleased demoRectOps 2
        (onMousePressed demoRectOps 2 demoEngineTwoMenus ⟨⟨10, 10⟩, .RIGHT, ⟨0, 0⟩⟩)
        ⟨⟨10, 10⟩, .RIGHT, ⟨0, 0⟩⟩).guis 0).children = [4, 5] ∧
     ((onMouseReleased demoRectOps 2
        (onMousePressed demoRectOps 2 demoEngineTwoMenus ⟨⟨10, 10⟩, .RIGHT, ⟨0, 0⟩⟩)
        ⟨⟨10, 10⟩, .RIGHT, ⟨0, 0⟩⟩).guis 4).parent = some 0) := by
  decide!

end inl.gui.Input.GuiEngine
